import Mathlib

/-!
Verification of the marketing-agent demo's core logic: the response
formatter (`clean_response_text`, `extract_table_from_response`,
`parse_table_row`), the SQL-trace extractor
(`extract_sql_query_from_trace`), the Bedrock client retry loop
(`send_message`), and the chat-history bookkeeping.  Python strings are
modelled as `List Char`; Python values appearing in trace structures as
the inductive `PyVal`.
-/

namespace MarketingAgent

/-- ASCII whitespace, the characters Python's `\s` / `str.strip()` treat as
whitespace on the inputs this code handles. -/
def pyWs (c : Char) : Bool :=
  c = ' ' ∨ c = '\t' ∨ c = '\n' ∨ c = '\r' ∨ c = '\x0b' ∨ c = '\x0c'

/-- Python `str.lower()` on one ASCII character. -/
def lowerC (c : Char) : Char :=
  if 'A' ≤ c ∧ c ≤ 'Z' then Char.ofNat (c.toNat + 32) else c

/-- Python `str.lower()`. -/
def pyLower (s : List Char) : List Char := s.map lowerC

/-- Python's substring test `needle in hay`. -/
def isSub (needle : List Char) : List Char → Bool
  | [] => needle.isPrefixOf []
  | c :: t => needle.isPrefixOf (c :: t) || isSub needle t

/-- Left strip: drop leading whitespace. -/
def ltrim (s : List Char) : List Char := s.dropWhile pyWs

/-- Right strip: drop trailing whitespace. -/
def rtrim : List Char → List Char
  | [] => []
  | c :: t =>
    match rtrim t with
    | [] => if pyWs c then [] else [c]
    | r => c :: r

/-- Python `str.strip()`. -/
def pyStrip (s : List Char) : List Char := rtrim (ltrim s)

/-- Python `text.split(sep)` for a one-character separator: `"".split(c)`
is `[""]`, a trailing separator yields a trailing empty piece. -/
def splitC (sep : Char) : List Char → List (List Char)
  | [] => [[]]
  | c :: t =>
    if c = sep then [] :: splitC sep t
    else
      match splitC sep t with
      | [] => [[c]]
      | l :: ls => (c :: l) :: ls

/-- Python `'\n'.join(lines)` generalised to one character. -/
def joinC (sep : Char) : List (List Char) → List Char
  | [] => []
  | l :: ls => if ls = [] then l else l ++ sep :: joinC sep ls

/-- Lines of a text, `text.split('\n')`. -/
def splitNl (s : List Char) : List (List Char) := splitC '\n' s

/-- `'\n'.join(lines)`. -/
def joinNl (ls : List (List Char)) : List Char := joinC '\n' ls

/-! ## `parse_table_row` (src/src/utils/helpers.py, lines 130-150) -/
/-- `parse_table_row`: split a row on `|`, drop a leading/trailing cell that
strips to empty, then strip every remaining cell. -/
def parse_table_row (line : List Char) : List (List Char) :=
  let cells := splitC '|' line
  let cells :=
    match cells with
    | c0 :: rest => if pyStrip c0 = [] then rest else cells
    | [] => cells
  let cells :=
    if h : cells ≠ [] then
      if pyStrip (cells.getLast h) = [] then cells.dropLast else cells
    else cells
  cells.map pyStrip

/-! ## `extract_table_from_response` (src/src/utils/helpers.py, lines 77-128) -/
/-- The line scan of `extract_table_from_response`: strip each line; a line
containing `|` together with `---` or `═══` is a separator that (only)
enters table mode; a line containing `|` is captured when table mode is on
or it has at least two `|`; an empty line while in table mode breaks the
scan. -/
def scanTableLines : List (List Char) → Bool → List (List Char)
  | [], _ => []
  | line :: rest, inTable =>
    let l := pyStrip line
    if isSub "|".toList l then
      if isSub "---".toList l ∨ isSub "═══".toList l then
        scanTableLines rest true
      else if inTable ∨ 2 ≤ l.count '|' then
        l :: scanTableLines rest true
      else
        scanTableLines rest inTable
    else if inTable ∧ l = [] then []
    else scanTableLines rest inTable

/-- The parsed table: headers, rows (headers included as row 0), data-row
count. -/
structure TableData where
  headers : List (List Char)
  rows : List (List (List Char))
  row_count : Nat
deriving DecidableEq, Repr

/-- `extract_table_from_response` (the `try` body; the `except` branch is
shown dead by `extract_table_checked_ok`). -/
def extract_table_from_response (text : List Char) :
    Bool × Option TableData :=
  let lines := splitNl text
  let table_lines := scanTableLines lines false
  if table_lines.length < 2 then (false, none)
  else
    match table_lines with
    | [] => (false, none)
    | first :: others =>
      let headers := parse_table_row first
      let kept := (others.map parse_table_row).filter
        (fun r => r.length = headers.length)
      let rows := headers :: kept
      if 1 < rows.length then
        (true, some ⟨headers, rows, rows.length - 1⟩)
      else (false, none)

/-! ## `clean_response_text` (src/src/utils/helpers.py, lines 43-75) -/
/-- The character class `[\s\-\|]` of the separator-line pattern. -/
def sepClass (c : Char) : Bool := pyWs c || c = '-' || c = '|'

/-- `re.match(r'^\s*\|[\s\-\|]*\|\s*$', line)`: after trimming outer
whitespace the line starts and ends with `|`, has at least two characters,
and everything between the pipes is whitespace, `-` or `|`. -/
def isSepLine (line : List Char) : Bool :=
  match pyStrip line with
  | '|' :: rest => rest ≠ [] && rest.getLast? == some '|' && rest.dropLast.all sepClass
  | _ => false

/-- `re.sub(r'\s+', '', line)`: delete every whitespace character. -/
def removeWs (l : List Char) : List Char := l.filter (fun c => !pyWs c)

/-- The per-line separator clean-up of `clean_response_text`: a separator
line has its whitespace removed and is (re-)framed with `|`. Other lines
pass through. -/
def fixSep (line : List Char) : List Char :=
  if isSepLine line then
    let l := removeWs line
    let l := if l.head? = some '|' then l else '|' :: l
    if l.getLast? = some '|' then l else l ++ ['|']
  else line

/-- Whether `re.search(r'\n\s*\n\s*\n', ·)` would match: some `'\n'` is
followed by a whitespace run containing at least two more newlines. -/
def hasTriple : List Char → Bool
  | [] => false
  | c :: t =>
    if c = '\n' ∧ 2 ≤ (t.takeWhile pyWs).count '\n' then true
    else hasTriple t

/-- The part of a whitespace run after its last newline. -/
def afterLastNl (l : List Char) : List Char :=
  (l.reverse.takeWhile (· ≠ '\n')).reverse

/-- What remains to scan after a `\n\s*\n\s*\n` match at the head of
`'\n' :: t`: the matched text runs through the last newline of the
whitespace run of `t`. -/
def afterMatch (t : List Char) : List Char :=
  afterLastNl (t.takeWhile pyWs) ++ t.drop (t.takeWhile pyWs).length

/-- Fuel-indexed worker for `re.sub(r'\n\s*\n\s*\n', '\n\n', text)`. -/
def subNNNF : Nat → List Char → List Char
  | _, [] => []
  | 0, l => l
  | f + 1, c :: t =>
    if c = '\n' ∧ 2 ≤ (t.takeWhile pyWs).count '\n' then
      '\n' :: '\n' :: subNNNF f (afterMatch t)
    else c :: subNNNF f t

/-- `re.sub(r'\n\s*\n\s*\n', '\n\n', text)`. A match starts at the first
newline whose following whitespace run holds two further newlines; greedy
backtracking extends it to the run's last newline; scanning resumes after
the match. -/
def subNNN (l : List Char) : List Char := subNNNF l.length l

/-- `clean_response_text`: `"No response received."` on empty input; else
collapse 3+ newline runs to 2, normalise separator lines, and strip. -/
def clean_response_text (text : List Char) : List Char :=
  if text = [] then "No response received.".toList
  else pyStrip (joinNl ((splitNl (subNNN text)).map fixSep))

/-! ## Exception-instrumented formatter

The Python indexings (`cells[0]`, `cells[-1]`, `table_lines[0]`) are the
only operations in the two formatter functions that can raise; here they
are modelled as fallible (`headE`, `lastE`) so that totality is the
provable statement `extract_table_checked t = .ok (extract_table_from_response t)`. -/
/-- `l[0]`, raising on an empty list. -/
def headE {α : Type} : List α → Except Unit α
  | [] => .error ()
  | a :: _ => .ok a

/-- `l[-1]`, raising on an empty list. -/
def lastE {α : Type} (l : List α) : Except Unit α :=
  match l.getLast? with
  | some a => .ok a
  | none => .error ()

/-- `parse_table_row` with its two indexings instrumented. -/
def parse_table_row_checked (line : List Char) : Except Unit (List (List Char)) :=
  let cells := splitC '|' line
  let step1 : Except Unit (List (List Char)) :=
    if cells.isEmpty then .ok cells
    else
      match headE cells with
      | .error e => .error e
      | .ok c0 => .ok (if pyStrip c0 = [] then cells.drop 1 else cells)
  match step1 with
  | .error e => .error e
  | .ok cells1 =>
    let step2 : Except Unit (List (List Char)) :=
      if cells1.isEmpty then .ok cells1
      else
        match lastE cells1 with
        | .error e => .error e
        | .ok cl => .ok (if pyStrip cl = [] then cells1.dropLast else cells1)
    match step2 with
    | .error e => .error e
    | .ok cells2 => .ok (cells2.map pyStrip)

/-- Run a fallible row parser over every line, propagating the first
exception. -/
def mapME (f : List Char → Except Unit (List (List Char))) :
    List (List Char) → Except Unit (List (List (List Char)))
  | [] => .ok []
  | l :: ls =>
    match f l with
    | .error e => .error e
    | .ok r =>
      match mapME f ls with
      | .error e => .error e
      | .ok rs => .ok (r :: rs)

/-- The `try` body of `extract_table_from_response` with the indexings
instrumented. -/
def extract_table_checked (text : List Char) :
    Except Unit (Bool × Option TableData) :=
  let lines := splitNl text
  let table_lines := scanTableLines lines false
  if table_lines.length < 2 then .ok (false, none)
  else
    match headE table_lines with
    | .error e => .error e
    | .ok first =>
      match parse_table_row_checked first with
      | .error e => .error e
      | .ok headers =>
        match mapME parse_table_row_checked (table_lines.drop 1) with
        | .error e => .error e
        | .ok parsed =>
          let kept := parsed.filter (fun r => r.length = headers.length)
          let rows := headers :: kept
          .ok (if 1 < rows.length then
            (true, some ⟨headers, rows, rows.length - 1⟩)
          else (false, none))

/-! ## `send_message` retry loop (src/src/services/aws_agent_client.py, lines 92-162) -/
/-- Outcome of one `invoke_agent` + stream-processing attempt: either the
aggregated text or a raised exception's message. -/
inductive AttemptResult where
  | success (text : List Char)
  | failure (errMsg : List Char)

/-- The retry classifier: the lowered error text contains one of the four
keywords. -/
def retryable (errMsg : List Char) : Bool :=
  [ "timeout".toList, "connection".toList, "read timed out".toList,
    "connection pool".toList ].any (fun kw => isSub kw (pyLower errMsg))

/-- The error text of the failure dictionary:
`f"Failed after {max_retries + 1} attempts. Last error: {str(last_error)}"`. -/
def errText (maxRetries : Nat) (lastError : List Char) : List Char :=
  "Failed after ".toList ++ (Nat.repr (maxRetries + 1)).toList
    ++ " attempts. Last error: ".toList ++ lastError

/-- The dictionary `send_message` returns: success carries
`metadata.attempt = attempt + 1`; failure carries
`metadata.attempts = max_retries + 1`. -/
inductive SendResult where
  | ok (responseText sessionId : List Char) (attempt : Nat)
  | err (errorText sessionId : List Char) (attempts : Nat)
deriving DecidableEq

/-- Observable behaviour of one `send_message` call: its result, the
`time.sleep` durations in order, and the session id passed to each
`invoke_agent` call in order. -/
structure SendOutcome where
  result : SendResult
  sleeps : List Nat
  calls : List (List Char)
deriving DecidableEq

/-- The `for attempt in range(max_retries + 1)` loop of `send_message`.
`oracle attempt sessionId message` is what the attempt's
`invoke_agent` + stream processing does. -/
def sendLoop (oracle : Nat → List Char → List Char → AttemptResult)
    (sid message : List Char) (maxRetries : Nat) (attempt : Nat) : SendOutcome :=
  match oracle attempt sid message with
  | .success txt => ⟨.ok txt sid (attempt + 1), [], [sid]⟩
  | .failure e =>
    if h : attempt < maxRetries ∧ retryable e then
      let r := sendLoop oracle sid message maxRetries (attempt + 1)
      ⟨r.result, 2 ^ attempt * 1 :: r.sleeps, sid :: r.calls⟩
    else
      ⟨.err (errText maxRetries e) sid (maxRetries + 1), [], [sid]⟩
termination_by maxRetries - attempt
decreasing_by omega

/-- The generated session id `f"streamlit-demo-{int(time.time())}"`. -/
def mintedSid (now : Nat) : List Char :=
  "streamlit-demo-".toList ++ (Nat.repr now).toList

/-- `send_message(message, session_id, max_retries)` at wall-clock second
`now`: mint a session id when the argument is `None` or falsy (empty), then
run the retry loop from attempt 0. -/
def send_message (oracle : Nat → List Char → List Char → AttemptResult)
    (message : List Char) (session_id : Option (List Char))
    (maxRetries : Nat) (now : Nat) : SendOutcome :=
  let sid :=
    match session_id with
    | none => mintedSid now
    | some s => if s = [] then mintedSid now else s
  sendLoop oracle sid message maxRetries 0

/-! ## Chat history (src/src/components/chat_interface.py lines 85-110, src/app.py lines 286-346) -/
/-- `ChatInterface.add_message_to_history`: append, then keep only the last
`max_messages = 50` entries. -/
def add_message_to_history {α : Type} (messages : List α) (m : α) : List α :=
  let messages := messages ++ [m]
  if 50 < messages.length then messages.drop (messages.length - 50)
  else messages

/-- One user turn of `app.main`: a user message and then the assistant
message are appended to `st.session_state.messages`, with no cap. -/
def mainAppendTurn {α : Type} (history : List α) (userMsg assistantMsg : α) :
    List α :=
  (history ++ [userMsg]) ++ [assistantMsg]

/-- The `app.main` history after `n` user turns. -/
def mainHistoryAfter (n : Nat) : List Nat :=
  (List.range n).foldl (fun h i => mainAppendTurn h (2 * i) (2 * i + 1)) []

/-! ## `extract_sql_query_from_trace`
(src/src/utils/helpers_simple.py lines 56-125; the identical copy in
src/app.py lines 88-158)

Trace structures are Python values: strings, lists and (insertion-ordered)
dicts.  Operations that can raise a `TypeError`/`AttributeError` on
malformed shapes — subscripting a non-dict, `.lower()` on a truthy
non-string — are modelled in `Except Unit`. -/
mutual
/-- A Python value as appears in Bedrock trace structures. -/
inductive PyVal where
  | str (s : List Char)
  | list (items : PyList)
  | dict (entries : PyDict)
/-- A Python list of trace values. -/
inductive PyList where
  | nil
  | cons (head : PyVal) (tail : PyList)
/-- A Python dict with string keys in insertion order. -/
inductive PyDict where
  | nil
  | cons (key : List Char) (value : PyVal) (tail : PyDict)
end

/-- Build a `PyList` from a Lean list (for concrete traces). -/
def mkL : List PyVal → PyList
  | [] => .nil
  | x :: t => .cons x (mkL t)

/-- Build a `PyDict` from a Lean association list (for concrete traces). -/
def mkD : List (List Char × PyVal) → PyDict
  | [] => .nil
  | (k, v) :: t => .cons k v (mkD t)

/-- `d[k]` lookup on a dict's (unique-keyed) entry list. -/
def pyLookup (k : List Char) : PyDict → Option PyVal
  | .nil => none
  | .cons k' v rest => if k' = k then some v else pyLookup k rest

/-- Key membership `k in d` for a dict. -/
def dictHasKey (k : List Char) : PyDict → Bool
  | .nil => false
  | .cons k' _ rest => k' = k || dictHasKey k rest

/-- Element membership `k in l` for a list and a string key. -/
def listHasStr (k : List Char) : PyList → Bool
  | .nil => false
  | .cons x rest =>
    (match x with | .str t => t = k | _ => false) || listHasStr k rest

/-- Python `k in v` for a string key: key membership on dicts, substring
on strings, element equality on lists. -/
def pyInE (k : List Char) : PyVal → Bool
  | .dict d => dictHasKey k d
  | .str s => isSub k s
  | .list l => listHasStr k l

/-- Python `v[k]` for a string key: raises a `TypeError`/`KeyError` unless
`v` is a dict holding `k`. -/
def pySubscript (v : PyVal) (k : List Char) : Except Unit PyVal :=
  match v with
  | .dict d =>
    match pyLookup k d with
    | some x => .ok x
    | none => .error ()
  | _ => .error ()

/-- Python truthiness of a value. -/
def pyTruthy : PyVal → Bool
  | .str s => !s.isEmpty
  | .list .nil => false
  | .list (.cons _ _) => true
  | .dict .nil => false
  | .dict (.cons _ _ _) => true

/-- `any(keyword in s.lower() for keyword in ['select', 'with', 'insert',
'update', 'delete'])`. -/
def hasKw (s : List Char) : Bool :=
  [ "select".toList, "with".toList, "insert".toList, "update".toList,
    "delete".toList ].any (fun kw => isSub kw (pyLower s))

/-- `s.replace('\\n', '\n')`. -/
def unescN : List Char → List Char
  | '\\' :: 'n' :: t => '\n' :: unescN t
  | c :: t => c :: unescN t
  | [] => []

/-- `s.replace('\\t', '\t')`. -/
def unescT : List Char → List Char
  | '\\' :: 't' :: t => '\t' :: unescT t
  | c :: t => c :: unescT t
  | [] => []

/-- `s.replace('\\n', '\n').replace('\\t', '\t').strip()`. -/
def cleanSql (s : List Char) : List Char := pyStrip (unescT (unescN s))

/-- Whether `item.get('name') == 'sql_query'`. -/
def itemIsSqlQuery (d : PyDict) : Bool :=
  match pyLookup "name".toList d with
  | some (.str n) => n = "sql_query".toList
  | _ => false

/-- The loop over `content['application/json']` items: the first dict item
named `sql_query` whose value is truthy decides the outcome (returning its
cleaned value if it is a keyword-bearing string, raising
`AttributeError` on `.lower()` if it is a truthy non-string). -/
def itemsLoop : PyList → Except Unit (Option (List Char))
  | .nil => .ok none
  | .cons item more =>
    match item with
    | .dict d =>
      if itemIsSqlQuery d then
        match (pyLookup "value".toList d).getD (.str []) with
        | .str s =>
          if !s.isEmpty ∧ hasKw s then .ok (some (cleanSql s)) else itemsLoop more
        | .list .nil => itemsLoop more
        | .list (.cons _ _) => .error ()
        | .dict .nil => itemsLoop more
        | .dict (.cons _ _ _) => .error ()
      else itemsLoop more
    | _ => itemsLoop more

/-- One invocation of the structural check: descend
`actionGroupInvocationInput → requestBody → content → application/json`
with Python's unguarded `in`/`[]` semantics. -/
def invStep (inv : PyVal) : Except Unit (Option (List Char)) :=
  match inv with
  | .dict d =>
    match pyLookup "actionGroupInvocationInput".toList d with
    | none => .ok none
    | some ag =>
      if pyInE "requestBody".toList ag then
        match pySubscript ag "requestBody".toList with
        | .error e => .error e
        | .ok rb =>
          if pyInE "content".toList rb then
            match pySubscript rb "content".toList with
            | .error e => .error e
            | .ok ct =>
              if pyInE "application/json".toList ct then
                match pySubscript ct "application/json".toList with
                | .error e => .error e
                | .ok jc =>
                  match jc with
                  | .list items => itemsLoop items
                  | _ => .ok none
              else .ok none
          else .ok none
      else .ok none
  | _ => .ok none

/-- The loop over the `invocationInput` list. -/
def invLoop : PyList → Except Unit (Option (List Char))
  | .nil => .ok none
  | .cons inv rest =>
    match invStep inv with
    | .error e => .error e
    | .ok (some q) => .ok (some q)
    | .ok none => invLoop rest

/-- The structural AWS-Bedrock-format check at a dict node (lines 66-85 of
helpers_simple.py). -/
def structCheck (entries : PyDict) : Except Unit (Option (List Char)) :=
  match pyLookup "invocationInput".toList entries with
  | some (.list invs) =>
    match invs with
    | .nil => .ok none
    | .cons _ _ => invLoop invs
  | _ => .ok none

/-- Case-insensitive prefix test against a lowercase keyword. -/
def ciPrefix (kw : List Char) (x : List Char) : Bool :=
  (x.take kw.length).map lowerC = kw

/-- Is the character at index `n` whitespace (for the regex `\s+`)? -/
def wsAfter (x : List Char) (n : Nat) : Bool :=
  match x.drop n with
  | d :: _ => pyWs d
  | [] => false

/-- Index of the first `;` at or after index `n`. -/
def findSemiFrom (x : List Char) (n : Nat) : Option Nat :=
  ((x.drop n).findIdx? (· = ';')).map (n + ·)

/-- `group(0)` of `KW\s+.*?(?:;|$)` matching at the head of `x`: through
the first `;` at index ≥ `kw.length + 1`, else the whole remainder. -/
def kwTake (kw : List Char) (x : List Char) : List Char :=
  match findSemiFrom x (kw.length + 1) with
  | some p => x.take (p + 1)
  | none => x

/-- `re.search(KW\s+.*?(?:;|$), x, re.IGNORECASE | re.DOTALL)`: leftmost
occurrence of the keyword followed by a whitespace character. -/
def kwSearch (kw : List Char) : List Char → Option (List Char)
  | [] => none
  | c :: t =>
    if ciPrefix kw (c :: t) ∧ wsAfter (c :: t) kw.length then
      some (kwTake kw (c :: t))
    else kwSearch kw t

/-- First index at which `kw` occurs (case-insensitively) followed by a
whitespace character. -/
def findKwWsIdx (kw : List Char) : List Char → Option Nat
  | [] => none
  | c :: t =>
    if ciPrefix kw (c :: t) ∧ wsAfter (c :: t) kw.length then some 0
    else (findKwWsIdx kw t).map (· + 1)

/-- Completion of a `WITH\s+.*?SELECT\s+.*?(?:;|$)` match anchored at the
head of `x` (which starts with `with` + whitespace): requires a later
`select` + whitespace, then runs through the first `;` after it, else to
the end. -/
def withTake (x : List Char) : Option (List Char) :=
  match findKwWsIdx "select".toList (x.drop 5) with
  | none => none
  | some k =>
    match findSemiFrom x (5 + k + 7) with
    | some p => some (x.take (p + 1))
    | none => some x

/-- `re.search(WITH\s+.*?SELECT\s+.*?(?:;|$), ·)`. -/
def withSearch : List Char → Option (List Char)
  | [] => none
  | c :: t =>
    if ciPrefix "with".toList (c :: t) ∧ wsAfter (c :: t) 4 then
      match withTake (c :: t) with
      | some m => some m
      | none => withSearch t
    else withSearch t

/-- The string-node fallback (lines 105-121 of helpers_simple.py): if the
string bears a keyword, try the five SQL regexes in order and clean the
first match.  (`$` is modelled as end-of-string; Python additionally lets
`$` match before one final newline, which changes the raw match only by a
trailing newline that the final `strip()` removes either way.) -/
def regexFallback (s : List Char) : Option (List Char) :=
  if hasKw s then
    match withSearch s with
    | some m => some (cleanSql m)
    | none =>
      match kwSearch "select".toList s with
      | some m => some (cleanSql m)
      | none =>
        match kwSearch "insert".toList s with
        | some m => some (cleanSql m)
        | none =>
          match kwSearch "update".toList s with
          | some m => some (cleanSql m)
          | none =>
            match kwSearch "delete".toList s with
            | some m => some (cleanSql m)
            | none => none
  else none

/-- The fallback key-scan step for one dict entry: a hit when the lowered
key is `sql_query`/`query`/`sql` and the value is a keyword-bearing
string. -/
def keyMatchHit (k : List Char) (v : PyVal) : Option (List Char) :=
  match v with
  | .str s =>
    if (pyLower k = "sql_query".toList ∨ pyLower k = "query".toList ∨
        pyLower k = "sql".toList) ∧ hasKw s then
      some (cleanSql s)
    else none
  | _ => none

mutual
/-- `search_for_sql_in_structure`: at a dict the structural check precedes
the fallback key scan (which recurses depth-first per entry), lists
recurse over their items, strings get the regex fallback. -/
def searchSql : PyVal → Except Unit (Option (List Char))
  | .str s => .ok (regexFallback s)
  | .list items => scanL items
  | .dict entries =>
    match structCheck entries with
    | .error e => .error e
    | .ok (some q) => .ok (some q)
    | .ok none => scanD entries

/-- The list branch: recurse into each item; the first exception or
truthy (non-empty) result ends the loop. -/
def scanL : PyList → Except Unit (Option (List Char))
  | .nil => .ok none
  | .cons x rest =>
    match searchSql x with
    | .error e => .error e
    | .ok (some q) => if q.isEmpty then scanL rest else .ok (some q)
    | .ok none => scanL rest

/-- The fallback key scan at a dict: per entry try the key-scan hit, then
recurse into dict/list values (string values are not recursed into); the
first exception or truthy result ends the loop. -/
def scanD : PyDict → Except Unit (Option (List Char))
  | .nil => .ok none
  | .cons k v rest =>
    match keyMatchHit k v with
    | some q => .ok (some q)
    | none =>
      match v with
      | .str _ => scanD rest
      | _ =>
        match searchSql v with
        | .error e => .error e
        | .ok (some q) => if q.isEmpty then scanD rest else .ok (some q)
        | .ok none => scanD rest
end

instance {ε α : Type} [DecidableEq ε] [DecidableEq α] : DecidableEq (Except ε α) := fun
  | .error e, .error e' =>
    if h : e = e' then .isTrue (by rw [h])
    else .isFalse (fun hc => h (Except.error.inj hc))
  | .error _, .ok _ => .isFalse (fun hc => Except.noConfusion hc)
  | .ok _, .error _ => .isFalse (fun hc => Except.noConfusion hc)
  | .ok a, .ok b =>
    if h : a = b then .isTrue (by rw [h])
    else .isFalse (fun hc => h (Except.ok.inj hc))

/-- `extract_sql_query_from_trace`: `None` for falsy trace data, else the
recursive search. -/
def extract_sql_query_from_trace (v : PyVal) : Except Unit (Option (List Char)) :=
  if pyTruthy v then searchSql v else .ok none

/-- The single invocation of a well-formed structural Bedrock trace. -/
def mkStructInv (items : List PyVal) : PyVal :=
  .dict (mkD [("actionGroupInvocationInput".toList,
    .dict (mkD [("requestBody".toList,
      .dict (mkD [("content".toList,
        .dict (mkD [("application/json".toList, .list (mkL items))]))]))]))])

/-- The entries of a well-formed structural Bedrock trace around the given
`application/json` item list. -/
def mkStructTraceEntries (items : List PyVal) : PyDict :=
  mkD [("invocationInput".toList, .list (mkL [mkStructInv items]))]

/-- A well-formed structural Bedrock trace around the given
`application/json` item list. -/
def mkStructTrace (items : List PyVal) : PyVal :=
  .dict (mkStructTraceEntries items)

/-- Whether the items loop of the structural check passes over this item
without returning and without raising. -/
def itemSkipsB : PyVal → Bool
  | .dict d =>
    if itemIsSqlQuery d then
      match (pyLookup "value".toList d).getD (.str []) with
      | .str s => s.isEmpty || !hasKw s
      | .list .nil => true
      | .dict .nil => true
      | _ => false
    else true
  | _ => true

/-! ## Supporting lemmas -/
/-- The session id carried by a `SendResult`. -/
def resultSid : SendResult → List Char
  | .ok _ sid _ => sid
  | .err _ sid _ => sid

/-- The attempt count carried by a failure `SendResult`. -/
def errAttempts : SendResult → Option Nat
  | .ok _ _ _ => none
  | .err _ _ attempts => some attempts

/-- A node-level hit of the `application/json` items loop. -/
def itemHit : PyVal → Bool
  | .dict d =>
    itemIsSqlQuery d &&
      (match (pyLookup "value".toList d).getD (.str []) with
       | .str s => !s.isEmpty && hasKw s
       | _ => false)
  | _ => false

/-- Some item of the list is a hit. -/
def itemsHitL : PyList → Bool
  | .nil => false
  | .cons x t => itemHit x || itemsHitL t

/-- A well-formed structural hit at one invocation. -/
def invHit : PyVal → Bool
  | .dict d =>
    match pyLookup "actionGroupInvocationInput".toList d with
    | some (.dict agd) =>
      match pyLookup "requestBody".toList agd with
      | some (.dict rbd) =>
        match pyLookup "content".toList rbd with
        | some (.dict ctd) =>
          match pyLookup "application/json".toList ctd with
          | some (.list items) => itemsHitL items
          | _ => false
        | _ => false
      | _ => false
    | _ => false
  | _ => false

/-- Some invocation is a structural hit. -/
def invHitL : PyList → Bool
  | .nil => false
  | .cons x t => invHit x || invHitL t

/-- A structural-branch hit at a dict node. -/
def structHitB (entries : PyDict) : Bool :=
  match pyLookup "invocationInput".toList entries with
  | some (.list invs) => invHitL invs
  | _ => false

mutual
/-- Some branch of `search_for_sql_in_structure` matches somewhere in the
structure: a regex hit at a string node, a structural or key-scan hit at a
dict node, or a hit in any child. -/
def anyHit : PyVal → Bool
  | .str s => (regexFallback s).isSome
  | .list items => anyHitL items
  | .dict entries => structHitB entries || anyHitD entries
/-- Some branch matches in some item of the list. -/
def anyHitL : PyList → Bool
  | .nil => false
  | .cons x t => anyHit x || anyHitL t
/-- Some branch matches at or below some entry of the dict. -/
def anyHitD : PyDict → Bool
  | .nil => false
  | .cons k v t => (keyMatchHit k v).isSome || anyHit v || anyHitD t
end

/-! ## Trim algebra (towards C3) -/
/-- Every character is whitespace. -/
def allWs (l : List Char) : Bool := l.all pyWs

/-! ## Lines of a trimmed text (towards C3) -/
/-- The effect of a left strip on the line decomposition: leading all-white
lines vanish, the first surviving line is left-trimmed. -/
def ltrimLines : List (List Char) → List (List Char)
  | [] => []
  | l :: ls =>
    if ls = [] then [ltrim l]
    else if allWs l = true then ltrimLines ls else ltrim l :: ls

/-- The effect of a right strip on the line decomposition: trailing
all-white lines vanish, the last surviving line is right-trimmed. -/
def rtrimLines : List (List Char) → List (List Char)
  | [] => []
  | l :: ls =>
    if ls = [] then [rtrim l]
    else if rtrimLines ls = [[]] then [rtrim l] else l :: rtrimLines ls

/-! ## Line-level view of the newline-collapse pattern (towards C3) -/
/-- After one line separator, whether the joined tail starts with another
whole-line-of-whitespace followed by a further separator. -/
def oneNl : List (List Char) → Bool
  | l :: _ :: _ => allWs l
  | [] => false
  | [_] => false

/-- After one line separator, whether two further separators follow with
only whitespace lines in between. -/
def twoNl : List (List Char) → Bool
  | l :: l2 :: _ :: _ => allWs l && allWs l2
  | [] => false
  | [_] => false
  | [_, _] => false

/-- `hasTriple` of the joined lines, computed on the line list. -/
def hasTripleL : List (List Char) → Bool
  | [] => false
  | [_] => false
  | _ :: l2 :: rest => twoNl (l2 :: rest) || hasTripleL (l2 :: rest)

/-- The `|`-framing step of the separator-line fix-up. -/
def pipeFrame (a : List Char) : List Char :=
  let b := if a.head? = some '|' then a else '|' :: a
  if b.getLast? = some '|' then b else b ++ ['|']

lemma takeWhile_len_le (p : Char → Bool) (l : List Char) :
    (l.takeWhile p).length ≤ l.length := by
  induction l with
  | nil => simp
  | cons c t ih =>
    by_cases h : p c
    · simp only [List.takeWhile_cons, h, if_true, List.length_cons]
      omega
    · simp only [List.takeWhile_cons, h, Bool.false_eq_true, if_false,
        List.length_nil, List.length_cons]
      omega

lemma afterMatch_len_le (t : List Char) : (afterMatch t).length ≤ t.length := by
  have h1 : (afterLastNl (t.takeWhile pyWs)).length ≤ (t.takeWhile pyWs).length := by
    simpa [afterLastNl] using
      takeWhile_len_le (· ≠ '\n') (t.takeWhile pyWs).reverse
  have h2 : (t.takeWhile pyWs).length ≤ t.length := takeWhile_len_le _ _
  simp only [afterMatch, List.length_append, List.length_drop]
  omega

lemma subNNNF_fuel_irrel : ∀ f g (l : List Char), l.length ≤ f → l.length ≤ g →
    subNNNF f l = subNNNF g l := by
  intro f
  induction f with
  | zero =>
    intro g l hf _
    interval_cases h : l.length
    · cases l with
      | nil => cases g <;> rfl
      | cons c t => simp at h
  | succ f ih =>
    intro g l hf hg
    cases l with
    | nil => cases g <;> rfl
    | cons c t =>
      cases g with
      | zero => simp at hg
      | succ g =>
        simp only [subNNNF]
        by_cases h : c = '\n' ∧ 2 ≤ (t.takeWhile pyWs).count '\n'
        · simp only [if_pos h]
          have hl := afterMatch_len_le t
          simp only [List.length_cons] at hf hg
          rw [ih g (afterMatch t) (by omega) (by omega)]
        · simp only [if_neg h]
          simp only [List.length_cons] at hf hg
          rw [ih g t (by omega) (by omega)]

lemma subNNN_nil : subNNN [] = [] := rfl

lemma subNNN_cons_match {c : Char} {t : List Char}
    (h : c = '\n' ∧ 2 ≤ (t.takeWhile pyWs).count '\n') :
    subNNN (c :: t) = '\n' :: '\n' :: subNNN (afterMatch t) := by
  have hl := afterMatch_len_le t
  simp only [subNNN, List.length_cons, subNNNF, if_pos h]
  rw [subNNNF_fuel_irrel t.length (afterMatch t).length (afterMatch t)
    (by omega) (le_refl _)]

lemma subNNN_cons_nomatch {c : Char} {t : List Char}
    (h : ¬(c = '\n' ∧ 2 ≤ (t.takeWhile pyWs).count '\n')) :
    subNNN (c :: t) = c :: subNNN t := by
  simp only [subNNN, List.length_cons, subNNNF, if_neg h]

lemma parse_table_row_checked_ok (line : List Char) :
    parse_table_row_checked line = .ok (parse_table_row line) := by
  unfold parse_table_row_checked parse_table_row
  cases h : splitC '|' line with
  | nil => simp [headE, lastE]
  | cons c0 rest =>
    simp only [List.isEmpty_cons, headE]
    by_cases h0 : pyStrip c0 = []
    · simp only [h0, if_pos rfl, if_true]
      cases rest with
      | nil => simp [lastE]
      | cons d ds =>
        simp only [List.isEmpty_cons, List.drop_succ_cons, List.drop_zero]
        cases hl : (d :: ds).getLast? with
        | none => simp [List.getLast?_eq_getLast] at hl
        | some a =>
          have : (d :: ds).getLast (by simp) = a := by
            have := List.getLast?_eq_getLast (d :: ds) (by simp)
            rw [hl] at this
            exact (Option.some_injective _ this.symm)
          simp [lastE, hl, dif_pos, this]
    · simp only [h0, if_neg h0, if_false, List.isEmpty_cons]
      cases hl : (c0 :: rest).getLast? with
      | none => simp [List.getLast?_eq_getLast] at hl
      | some a =>
        have : (c0 :: rest).getLast (by simp) = a := by
          have := List.getLast?_eq_getLast (c0 :: rest) (by simp)
          rw [hl] at this
          exact (Option.some_injective _ this.symm)
        simp [lastE, hl, dif_pos, this]

lemma mapME_ok (f : List Char → Except Unit (List (List Char)))
    (g : List Char → List (List Char)) (h : ∀ l, f l = .ok (g l)) :
    ∀ ls, mapME f ls = .ok (ls.map g) := by
  intro ls
  induction ls with
  | nil => rfl
  | cons l ls ih => simp [mapME, h l, ih]

/-- The `except` branch of `extract_table_from_response` is dead: the
`try` body never raises, on any input. -/
lemma extract_table_checked_ok (text : List Char) :
    extract_table_checked text = .ok (extract_table_from_response text) := by
  unfold extract_table_checked extract_table_from_response
  by_cases h : (scanTableLines (splitNl text) false).length < 2
  · simp [h]
  · cases hl : scanTableLines (splitNl text) false with
    | nil => rw [hl] at h; simp at h
    | cons first others =>
      rw [hl] at h
      simp [hl, if_neg h, headE, parse_table_row_checked_ok,
        mapME_ok parse_table_row_checked parse_table_row
          parse_table_row_checked_ok]
      simp only [List.length_cons] at h
      rw [if_neg h, if_neg h]

lemma retryable_of_rto {e : List Char}
    (h : isSub "read timed out".toList (pyLower e) = true) : retryable e = true := by
  simp only [retryable, List.any_cons, List.any_nil, h, Bool.or_true, Bool.true_or,
    Bool.or_false]

lemma isSub_append_left (n : List Char) : ∀ a : List Char, isSub n (a ++ n) = true := by
  intro a
  induction a with
  | nil =>
    cases n with
    | nil => rfl
    | cons c t =>
      simp only [List.nil_append, isSub, List.isPrefixOf_cons₂]
      have : List.isPrefixOf t t = true := by
        induction t with
        | nil => rfl
        | cons d ds ihd => simp [List.isPrefixOf_cons₂, ihd]
      simp [this]
  | cons a as ih =>
    simp only [List.cons_append, isSub]
    have ih' : isSub n (as.append n) = true := ih
    rw [ih']
    simp

lemma sendLoop_sid (oracle : Nat → List Char → List Char → AttemptResult)
    (sid message : List Char) (maxRetries : Nat) :
    ∀ fuel attempt, maxRetries - attempt ≤ fuel →
      (∀ c ∈ (sendLoop oracle sid message maxRetries attempt).calls, c = sid) ∧
      resultSid (sendLoop oracle sid message maxRetries attempt).result = sid := by
  intro fuel
  induction fuel with
  | zero =>
    intro attempt h
    rw [sendLoop]
    cases ho : oracle attempt sid message with
    | success txt => simp [resultSid]
    | failure e =>
      have hne : ¬(attempt < maxRetries ∧ retryable e = true) := by
        intro ⟨h1, _⟩; omega
      dsimp only
      rw [dif_neg hne]
      simp [resultSid]
  | succ fuel ih =>
    intro attempt h
    rw [sendLoop]
    cases ho : oracle attempt sid message with
    | success txt => simp [resultSid]
    | failure e =>
      dsimp only
      by_cases hc : attempt < maxRetries ∧ retryable e = true
      · rw [dif_pos hc]
        have hrec := ih (attempt + 1) (by omega)
        refine ⟨?_, hrec.2⟩
        intro c hc'
        simp only [List.mem_cons] at hc'
        rcases hc' with rfl | hc'
        · rfl
        · exact hrec.1 c hc'
      · rw [dif_neg hc]
        simp [resultSid]

/-! ## Claim theorems -/
/-- C1: with `maxRetries = 2` and every attempt failing with an error whose
message contains "read timed out" (case-insensitively), `send_message`
makes exactly 3 attempts, sleeps `2^attempt` seconds (1s then 2s) before
each retry, and returns a failure result whose `metadata.attempts` is 3. -/
theorem C1_retry_exhaustion
    (oracle : Nat → List Char → List Char → AttemptResult)
    (message : List Char) (sessionArg : Option (List Char)) (now : Nat)
    (h : ∀ a s m, a < 3 → ∃ e, oracle a s m = .failure e ∧
      isSub "read timed out".toList (pyLower e) = true) :
    (send_message oracle message sessionArg 2 now).calls.length = 3 ∧
    (send_message oracle message sessionArg 2 now).sleeps = [1, 2] ∧
    ∃ e sid, (send_message oracle message sessionArg 2 now).result
      = .err (errText 2 e) sid 3 := by
  unfold send_message
  set sid := match sessionArg with
    | none => mintedSid now
    | some s => if s = [] then mintedSid now else s with hsid
  clear_value sid
  obtain ⟨e0, he0, hr0⟩ := h 0 sid message (by omega)
  obtain ⟨e1, he1, hr1⟩ := h 1 sid message (by omega)
  obtain ⟨e2, he2, hr2⟩ := h 2 sid message (by omega)
  rw [sendLoop, he0]
  dsimp only
  rw [dif_pos ⟨by omega, retryable_of_rto hr0⟩, sendLoop, he1]
  dsimp only
  rw [dif_pos ⟨by omega, retryable_of_rto hr1⟩, sendLoop, he2]
  dsimp only
  rw [dif_neg (by intro ⟨hlt, _⟩; omega)]
  refine ⟨rfl, by norm_num, e2, sid, rfl⟩

/-- Witness for C1 at a concrete oracle that always raises
"read timed out". -/
theorem C1_retry_exhaustion_witness :
    (send_message (fun _ _ _ => .failure "read timed out".toList)
      "m".toList (some "s".toList) 2 0).calls.length = 3 ∧
    (send_message (fun _ _ _ => .failure "read timed out".toList)
      "m".toList (some "s".toList) 2 0).sleeps = [1, 2] ∧
    ∃ e sid, (send_message (fun _ _ _ => .failure "read timed out".toList)
      "m".toList (some "s".toList) 2 0).result = .err (errText 2 e) sid 3 :=
  C1_retry_exhaustion (fun _ _ _ => .failure "read timed out".toList)
    "m".toList (some "s".toList) 0
    (fun _ _ _ _ => ⟨"read timed out".toList, rfl, by decide⟩)

/-- C2 counterexample: with a non-retryable first error ("AccessDenied")
and `maxRetries = 2`, exactly 1 attempt is made, but the failure result
reports `metadata.attempts = 3`, not the actual attempt count 1. -/
theorem C2_counterexample :
    (send_message (fun _ _ _ => .failure "AccessDenied".toList)
      "m".toList (some "s".toList) 2 0).calls.length = 1 ∧
    errAttempts (send_message (fun _ _ _ => .failure "AccessDenied".toList)
      "m".toList (some "s".toList) 2 0).result = some 3 ∧
    (3 : Nat) ≠ 1 := by
  have hs : send_message (fun _ _ _ => .failure "AccessDenied".toList)
      "m".toList (some "s".toList) 2 0
      = sendLoop (fun _ _ _ => .failure "AccessDenied".toList)
        "s".toList "m".toList 2 0 := rfl
  rw [hs, sendLoop]
  dsimp only
  rw [dif_neg (by intro ⟨_, hr⟩; revert hr; decide)]
  refine ⟨rfl, rfl, by omega⟩

/-- C2 (amended): a non-retryable first error terminates after exactly 1
request attempt, and the failure result carries the last error's
description inside its error text — but reports `maxRetries + 1` (not the
actual count 1) as `metadata.attempts`. -/
theorem C2_nonretryable_single_attempt
    (oracle : Nat → List Char → List Char → AttemptResult)
    (message sid : List Char) (now maxRetries : Nat)
    (hsid : sid ≠ [])
    (h : ∃ e, oracle 0 sid message = .failure e ∧ retryable e = false) :
    (send_message oracle message (some sid) maxRetries now).calls.length = 1 ∧
    ∃ e, oracle 0 sid message = .failure e ∧
      (send_message oracle message (some sid) maxRetries now).result
        = .err (errText maxRetries e) sid (maxRetries + 1) ∧
      isSub e (errText maxRetries e) = true := by
  obtain ⟨e, he, hr⟩ := h
  have hs : send_message oracle message (some sid) maxRetries now
      = sendLoop oracle sid message maxRetries 0 := by
    unfold send_message
    dsimp only
    rw [if_neg hsid]
  rw [hs, sendLoop, he]
  dsimp only
  rw [dif_neg (by intro ⟨_, hr'⟩; rw [hr] at hr'; exact absurd hr' (by simp))]
  exact ⟨rfl, e, rfl, rfl, by
    have : errText maxRetries e = ("Failed after ".toList
        ++ (Nat.repr (maxRetries + 1)).toList ++ " attempts. Last error: ".toList) ++ e := by
      simp [errText]
    rw [this]
    exact isSub_append_left e _⟩

/-- Witness for the amended C2. -/
theorem C2_nonretryable_witness :
    (send_message (fun _ _ _ => .failure "AccessDenied".toList)
      "m".toList (some "s".toList) 2 0).calls.length = 1 ∧
    ∃ e, (fun (_ : Nat) (_ _ : List Char) => AttemptResult.failure "AccessDenied".toList)
        0 "s".toList "m".toList = .failure e ∧
      (send_message (fun _ _ _ => .failure "AccessDenied".toList)
        "m".toList (some "s".toList) 2 0).result
          = .err (errText 2 e) "s".toList 3 ∧
      isSub e (errText 2 e) = true :=
  C2_nonretryable_single_attempt (fun _ _ _ => .failure "AccessDenied".toList)
    "m".toList "s".toList 0 2 (by decide)
    ⟨"AccessDenied".toList, rfl, by decide⟩

/-- C9: a missing or empty `session_id` does not fail: `send_message`
mints `"streamlit-demo-<epoch seconds>"`, passes it to every attempt, and
both success and failure results carry it. -/
theorem C9_minted_session_id
    (oracle : Nat → List Char → List Char → AttemptResult)
    (message : List Char) (maxRetries now : Nat)
    (sessionArg : Option (List Char))
    (h : sessionArg = none ∨ sessionArg = some []) :
    (∀ c ∈ (send_message oracle message sessionArg maxRetries now).calls,
      c = mintedSid now) ∧
    resultSid (send_message oracle message sessionArg maxRetries now).result
      = mintedSid now := by
  have hs : send_message oracle message sessionArg maxRetries now
      = sendLoop oracle (mintedSid now) message maxRetries 0 := by
    rcases h with rfl | rfl
    · rfl
    · unfold send_message
      dsimp only
      rw [if_pos rfl]
  rw [hs]
  exact sendLoop_sid oracle (mintedSid now) message maxRetries maxRetries 0 (by omega)

/-- Witness for C9 with an empty session id and a succeeding oracle. -/
theorem C9_minted_session_id_witness :
    (∀ c ∈ (send_message (fun _ _ _ => .success "hi".toList)
        "m".toList (some []) 2 1700000000).calls, c = mintedSid 1700000000) ∧
    resultSid (send_message (fun _ _ _ => .success "hi".toList)
        "m".toList (some []) 2 1700000000).result = mintedSid 1700000000 :=
  C9_minted_session_id (fun _ _ _ => .success "hi".toList)
    "m".toList 2 1700000000 (some []) (Or.inr rfl)

/-- C5 counterexample: the app's own orchestrator (`app.main`) appends
turns with no cap, so after 26 user turns the session history holds 52
entries — the 50-entry invariant does not hold in every reachable state. -/
theorem C5_counterexample :
    (mainHistoryAfter 26).length = 52 ∧ ¬((mainHistoryAfter 26).length ≤ 50) := by
  decide

/-- C5 (amended): histories maintained through
`ChatInterface.add_message_to_history` never exceed 50 entries, and an
append at 50 evicts the oldest entry; `app.main` appends directly without
this cap. -/
theorem C5_capped_history {α : Type} (msgs : List α) (m : α) :
    (add_message_to_history msgs m).length ≤ 50 ∧
    (msgs.length = 50 → add_message_to_history msgs m = msgs.tail ++ [m]) := by
  constructor
  · unfold add_message_to_history
    by_cases h : 50 < (msgs ++ [m]).length
    · simp only [if_pos h, List.length_drop]
      omega
    · simp only [if_neg h]
      omega
  · intro h50
    unfold add_message_to_history
    have hlen : (msgs ++ [m]).length = 51 := by simp [h50]
    rw [if_pos (by omega), hlen]
    norm_num
    cases msgs with
    | nil => simp at h50
    | cons a t => simp

/-- Witness for the amended C5 at a concrete 50-entry history. -/
theorem C5_capped_history_witness :
    add_message_to_history (List.range 50) 50 = (List.range 50).tail ++ [50] ∧
    (add_message_to_history (List.range 50) 50).length ≤ 50 :=
  ⟨(C5_capped_history (List.range 50) 50).2 (by simp),
   (C5_capped_history (List.range 50) 50).1⟩

/-- C4 counterexample: on the claim's input — header `"a|b"`, rows
`"1|2"`, `"3"` — the extractor returns `(False, None)`: single-pipe lines
are never captured outside table mode, so no table is found at all. -/
theorem C4_counterexample :
    extract_table_from_response "a|b\n1|2\n3".toList = (false, none) := by decide

/-- C4 (amended): with pipe-framed lines — header `"|a|b|"`, rows
`"|1|2|"`, `"|3|"` — only the mismatched row is discarded: the result is
success with rows `[[a,b],[1,2]]` and rowCount 1; in general a captured
row is kept only if its cell count equals the header's, mismatches being
silently discarded. -/
theorem C4_mismatched_row_discarded :
    extract_table_from_response "|a|b|\n|1|2|\n|3|".toList
      = (true, some ⟨["a".toList, "b".toList],
          [["a".toList, "b".toList], ["1".toList, "2".toList]], 1⟩) ∧
    ∀ (t : List Char) (d : TableData),
      (extract_table_from_response t).2 = some d →
      d.rows.head? = some d.headers ∧ ∀ r ∈ d.rows, r.length = d.headers.length := by
  refine ⟨by decide, ?_⟩
  intro t d h
  simp only [extract_table_from_response] at h
  by_cases hlen : (scanTableLines (splitNl t) false).length < 2
  · simp [hlen] at h
  · cases hl : scanTableLines (splitNl t) false with
    | nil => rw [hl] at hlen; simp at hlen
    | cons first others =>
      rw [hl] at h hlen
      rw [if_neg hlen] at h
      dsimp only at h
      by_cases hr : 1 < (parse_table_row first :: (others.map parse_table_row).filter
          (fun r => r.length = (parse_table_row first).length)).length
      · rw [if_pos hr] at h
        simp only [Option.some_inj] at h
        subst h
        refine ⟨rfl, ?_⟩
        intro r hrmem
        rcases List.mem_cons.mp hrmem with rfl | hrk
        · rfl
        · have := List.mem_filter.mp hrk
          exact of_decide_eq_true this.2
      · rw [if_neg hr] at h
        simp at h

/-- Witness for the amended C4's universal part at the concrete input. -/
theorem C4_mismatched_row_discarded_witness :
    (⟨["a".toList, "b".toList],
      [["a".toList, "b".toList], ["1".toList, "2".toList]], 1⟩ : TableData).rows.head?
        = some (TableData.headers ⟨["a".toList, "b".toList],
          [["a".toList, "b".toList], ["1".toList, "2".toList]], 1⟩) ∧
    ∀ r ∈ (⟨["a".toList, "b".toList],
        [["a".toList, "b".toList], ["1".toList, "2".toList]], 1⟩ : TableData).rows,
      r.length = (⟨["a".toList, "b".toList],
        [["a".toList, "b".toList], ["1".toList, "2".toList]], 1⟩ : TableData).headers.length :=
  C4_mismatched_row_discarded.2 "|a|b|\n|1|2|\n|3|".toList
    ⟨["a".toList, "b".toList], [["a".toList, "b".toList], ["1".toList, "2".toList]], 1⟩
    (by decide)

lemma isSub_single_of_count {c : Char} {l : List Char} (h : 1 ≤ l.count c) :
    isSub [c] l = true := by
  induction l with
  | nil => simp at h
  | cons a t ih =>
    simp only [isSub]
    by_cases hac : a = c
    · subst hac
      simp [List.isPrefixOf]
    · have ht : 1 ≤ t.count c := by
        rw [List.count_cons] at h
        simp only [beq_iff_eq, hac, if_false] at h
        omega
      rw [ih ht]
      simp

/-- C10: table mode is entered (and the line captured) on any stripped
line with at least two `|` and no separator marks, even without any
`---`/`═══` line — a pipe-framed two-line table extracts successfully;
conversely a single-`|` line before table mode is never captured (it is
skipped, entering table mode only if it carries separator marks). -/
theorem C10_pipe_count_table_mode :
    extract_table_from_response "|a|b|\n|1|2|".toList
      = (true, some ⟨["a".toList, "b".toList],
          [["a".toList, "b".toList], ["1".toList, "2".toList]], 1⟩) ∧
    (∀ (line : List Char) (rest : List (List Char)),
      2 ≤ (pyStrip line).count '|' →
      ¬(isSub "---".toList (pyStrip line) = true ∨
        isSub "═══".toList (pyStrip line) = true) →
      scanTableLines (line :: rest) false
        = pyStrip line :: scanTableLines rest true) ∧
    (∀ (line : List Char) (rest : List (List Char)),
      (pyStrip line).count '|' = 1 →
      scanTableLines (line :: rest) false = scanTableLines rest true ∨
      scanTableLines (line :: rest) false = scanTableLines rest false) := by
  refine ⟨by decide, ?_, ?_⟩
  · intro line rest hcount hsep
    simp only [scanTableLines]
    have hp : isSub "|".toList (pyStrip line) = true :=
      isSub_single_of_count (l := pyStrip line) (by omega)
    rw [if_pos hp, if_neg hsep, if_pos (Or.inr hcount)]
  · intro line rest hcount
    simp only [scanTableLines]
    have hp : isSub "|".toList (pyStrip line) = true :=
      isSub_single_of_count (l := pyStrip line) (by omega)
    rw [if_pos hp]
    by_cases hsep : isSub "---".toList (pyStrip line) = true ∨
        isSub "═══".toList (pyStrip line) = true
    · rw [if_pos hsep]
      exact Or.inl rfl
    · rw [if_neg hsep, if_neg (by
        rintro (hf | hc)
        · exact Bool.false_ne_true hf
        · omega)]
      exact Or.inr rfl

/-- Witness for C10's universal parts at concrete lines. -/
theorem C10_pipe_count_table_mode_witness :
    scanTableLines (" |x|y| ".toList :: ["z".toList]) false
      = pyStrip " |x|y| ".toList :: scanTableLines ["z".toList] true ∧
    (scanTableLines ("a|b".toList :: ["z".toList]) false
        = scanTableLines ["z".toList] true ∨
      scanTableLines ("a|b".toList :: ["z".toList]) false
        = scanTableLines ["z".toList] false) :=
  ⟨C10_pipe_count_table_mode.2.1 " |x|y| ".toList ["z".toList] (by decide)
      (by decide),
   C10_pipe_count_table_mode.2.2 "a|b".toList ["z".toList] (by decide)⟩

/-- C6: the two formatter functions are total: the instrumented
`extract_table_from_response` body never raises (so the `except` branch is
dead and the plain value is always returned), and `clean_response_text` is
a total function that degrades an empty input to the fixed message. -/
theorem C6_formatter_total (t : List Char) :
    extract_table_checked t = .ok (extract_table_from_response t) ∧
    clean_response_text [] = "No response received.".toList :=
  ⟨extract_table_checked_ok t, by decide⟩

lemma itemsLoop_skip (item : PyVal) (more : PyList) (h : itemSkipsB item = true) :
    itemsLoop (.cons item more) = itemsLoop more := by
  cases item with
  | str s => rfl
  | list l => rfl
  | dict d =>
    simp only [itemsLoop]
    by_cases hq : itemIsSqlQuery d = true
    · rw [if_pos hq]
      simp only [itemSkipsB, if_pos hq] at h
      cases hv : (pyLookup "value".toList d).getD (.str []) with
      | str s =>
        rw [hv] at h
        dsimp only at h ⊢
        rw [if_neg (by
          rintro ⟨hne, hkw⟩
          rcases Bool.or_eq_true_iff.mp h with h1 | h1
          · rw [Bool.not_eq_true'] at hne
            rw [hne] at h1
            exact Bool.false_ne_true h1
          · rw [Bool.not_eq_true'] at h1
            rw [h1] at hkw
            exact Bool.false_ne_true hkw)]
      | list l =>
        rw [hv] at h
        cases l with
        | nil => rfl
        | cons x xs => exact absurd h (Bool.false_ne_true)
      | dict dd =>
        rw [hv] at h
        cases dd with
        | nil => rfl
        | cons k v xs => exact absurd h (Bool.false_ne_true)
    · rw [if_neg hq]

lemma itemsLoop_mkL_append (pre rest : List PyVal)
    (h : ∀ p ∈ pre, itemSkipsB p = true) :
    itemsLoop (mkL (pre ++ rest)) = itemsLoop (mkL rest) := by
  induction pre with
  | nil => rfl
  | cons p ps ih =>
    have hm : mkL ((p :: ps) ++ rest) = .cons p (mkL (ps ++ rest)) := rfl
    rw [hm, itemsLoop_skip p _ (h p (by simp)),
      ih (fun q hq => h q (by simp [hq]))]

lemma searchSql_structTrace (items : List PyVal) (q : List Char)
    (h : itemsLoop (mkL items) = .ok (some q)) :
    extract_sql_query_from_trace (mkStructTrace items) = .ok (some q) := by
  have hpt : extract_sql_query_from_trace (mkStructTrace items)
      = searchSql (PyVal.dict (mkStructTraceEntries items)) := by
    unfold extract_sql_query_from_trace
    rw [if_pos (by rfl)]
    rfl
  rw [hpt]
  have hstep : structCheck (mkStructTraceEntries items)
      = invLoop (.cons (mkStructInv items) .nil) := by
    with_unfolding_all rfl
  have hinv : invStep (mkStructInv items) = itemsLoop (mkL items) := by
    with_unfolding_all rfl
  rw [searchSql, hstep, invLoop, hinv, h]

/-- C7: for any structural Bedrock trace whose `application/json` item
sequence reaches a `{name: "sql_query", value: "SELECT\\n*\\nFROM t"}`
pair after only non-matching items, `extract_sql_query_from_trace`
returns `"SELECT\n*\nFROM t"`: the escaped `\n` sequences are turned into
real newlines and surrounding whitespace is stripped. -/
theorem C7_structural_sql_extraction (pre post : List PyVal)
    (h : ∀ p ∈ pre, itemSkipsB p = true) :
    extract_sql_query_from_trace (mkStructTrace (pre ++
        .dict (mkD [("name".toList, .str "sql_query".toList),
          ("value".toList, .str "SELECT\\n*\\nFROM t".toList)]) :: post))
      = .ok (some "SELECT\n*\nFROM t".toList) := by
  apply searchSql_structTrace
  rw [itemsLoop_mkL_append pre _ h]
  rfl

theorem itemsLoop_some_hit : ∀ l q, itemsLoop l = .ok (some q) → itemsHitL l = true
  | .nil, q, h => by simp [itemsLoop] at h
  | .cons item more, q, h => by
    have ih := itemsLoop_some_hit more
    cases item with
    | str s =>
      rw [show itemsLoop (.cons (.str s) more) = itemsLoop more from rfl] at h
      rw [itemsHitL, ih q h]
      simp
    | list l2 =>
      rw [show itemsLoop (.cons (.list l2) more) = itemsLoop more from rfl] at h
      rw [itemsHitL, ih q h]
      simp
    | dict d =>
      rw [itemsLoop] at h
      by_cases hq : itemIsSqlQuery d = true
      · rw [if_pos hq] at h
        cases hv : (pyLookup "value".toList d).getD (.str []) with
        | str s =>
          rw [hv] at h
          dsimp only at h
          by_cases hc : (!s.isEmpty) = true ∧ hasKw s = true
          · rw [itemsHitL]
            have hih : itemHit (.dict d) = true := by
              rw [itemHit, hv, hq]
              simp [hc.1, hc.2]
            rw [hih]
            simp
          · rw [if_neg hc] at h
            rw [itemsHitL, ih q h]
            simp
        | list l2 =>
          rw [hv] at h
          cases l2 with
          | nil => rw [itemsHitL, ih q h]; simp
          | cons x xs => simp at h
        | dict dd =>
          rw [hv] at h
          cases dd with
          | nil => rw [itemsHitL, ih q h]; simp
          | cons k v xs => simp at h
      · rw [if_neg hq] at h
        rw [itemsHitL, ih q h]
        simp

lemma pySubscript_dict_some {d : PyDict} {k : List Char} {x : PyVal}
    (h : pyLookup k d = some x) : pySubscript (.dict d) k = .ok x := by
  unfold pySubscript
  dsimp only
  rw [h]

lemma pySubscript_dict_none {d : PyDict} {k : List Char}
    (h : pyLookup k d = none) : pySubscript (.dict d) k = .error () := by
  unfold pySubscript
  dsimp only
  rw [h]

lemma invStep_some_hit : ∀ inv q, invStep inv = .ok (some q) → invHit inv = true := by
  intro inv q h
  cases inv with
  | str s => simp [invStep] at h
  | list l => simp [invStep] at h
  | dict d =>
    rw [invStep] at h
    cases hag : pyLookup "actionGroupInvocationInput".toList d with
    | none => rw [hag] at h; simp at h
    | some ag =>
      rw [hag] at h
      dsimp only at h
      cases ag with
      | str s2 =>
        by_cases hin : pyInE "requestBody".toList (.str s2) = true
        · rw [if_pos hin] at h
          simp [pySubscript] at h
        · rw [if_neg hin] at h
          simp at h
      | list l2 =>
        by_cases hin : pyInE "requestBody".toList (.list l2) = true
        · rw [if_pos hin] at h
          simp [pySubscript] at h
        · rw [if_neg hin] at h
          simp at h
      | dict agd =>
        by_cases hin : pyInE "requestBody".toList (.dict agd) = true
        · rw [if_pos hin] at h
          cases hrb : pyLookup "requestBody".toList agd with
          | none => rw [pySubscript_dict_none hrb] at h; simp at h
          | some rb =>
            rw [pySubscript_dict_some hrb] at h
            dsimp only at h
            cases rb with
            | str s3 =>
              by_cases hin2 : pyInE "content".toList (.str s3) = true
              · rw [if_pos hin2] at h; simp [pySubscript] at h
              · rw [if_neg hin2] at h; simp at h
            | list l3 =>
              by_cases hin2 : pyInE "content".toList (.list l3) = true
              · rw [if_pos hin2] at h; simp [pySubscript] at h
              · rw [if_neg hin2] at h; simp at h
            | dict rbd =>
              by_cases hin2 : pyInE "content".toList (.dict rbd) = true
              · rw [if_pos hin2] at h
                cases hct : pyLookup "content".toList rbd with
                | none => rw [pySubscript_dict_none hct] at h; simp at h
                | some ct =>
                  rw [pySubscript_dict_some hct] at h
                  dsimp only at h
                  cases ct with
                  | str s4 =>
                    by_cases hin3 : pyInE "application/json".toList (.str s4) = true
                    · rw [if_pos hin3] at h; simp [pySubscript] at h
                    · rw [if_neg hin3] at h; simp at h
                  | list l4 =>
                    by_cases hin3 : pyInE "application/json".toList (.list l4) = true
                    · rw [if_pos hin3] at h; simp [pySubscript] at h
                    · rw [if_neg hin3] at h; simp at h
                  | dict ctd =>
                    by_cases hin3 : pyInE "application/json".toList (.dict ctd) = true
                    · rw [if_pos hin3] at h
                      cases haj : pyLookup "application/json".toList ctd with
                      | none => rw [pySubscript_dict_none haj] at h; simp at h
                      | some jc =>
                        rw [pySubscript_dict_some haj] at h
                        dsimp only at h
                        cases jc with
                        | str s5 => simp at h
                        | dict dd5 => simp at h
                        | list items =>
                          have hhit := itemsLoop_some_hit items q h
                          rw [invHit, hag]
                          dsimp only
                          rw [hrb]
                          dsimp only
                          rw [hct]
                          dsimp only
                          rw [haj]
                          dsimp only
                          exact hhit
                    · rw [if_neg hin3] at h; simp at h
              · rw [if_neg hin2] at h; simp at h
        · rw [if_neg hin] at h
          simp at h

theorem invLoop_some_hit : ∀ l q, invLoop l = .ok (some q) → invHitL l = true
  | .nil, q, h => by simp [invLoop] at h
  | .cons inv rest, q, h => by
    rw [invLoop] at h
    have ih := invLoop_some_hit rest
    cases hs : invStep inv with
    | error e => rw [hs] at h; simp at h
    | ok o =>
      rw [hs] at h
      cases o with
      | some q2 =>
        rw [invHitL, invStep_some_hit inv q2 hs]
        simp
      | none =>
        rw [invHitL, ih q h]
        simp

lemma structCheck_some_hit {entries : PyDict} {q : List Char}
    (h : structCheck entries = .ok (some q)) : structHitB entries = true := by
  rw [structCheck] at h
  cases hii : pyLookup "invocationInput".toList entries with
  | none => rw [hii] at h; simp at h
  | some ii =>
    rw [hii] at h
    cases ii with
    | str s => simp at h
    | dict d => simp at h
    | list invs =>
      cases invs with
      | nil => simp at h
      | cons inv rest =>
        rw [structHitB, hii]
        exact invLoop_some_hit _ q h

mutual
/-- If no branch matches anywhere in a value, the search returns `None` or
raises. -/
theorem noHit_val : ∀ v, anyHit v = false →
    searchSql v = .ok none ∨ searchSql v = .error ()
  | .str s, h => by
    rw [searchSql]
    cases hr : regexFallback s with
    | none => exact Or.inl rfl
    | some q => rw [anyHit, hr] at h; simp at h
  | .list items, h => by
    rw [searchSql]
    exact noHit_list items h
  | .dict entries, h => by
    rw [searchSql]
    rw [anyHit] at h
    obtain ⟨hs, hd⟩ := Bool.or_eq_false_iff.mp h
    cases hsc : structCheck entries with
    | error e => cases e; exact Or.inr rfl
    | ok o =>
      cases o with
      | some q => exact absurd (structCheck_some_hit hsc) (by simp [hs])
      | none => exact noHit_dict entries hd
/-- If no branch matches in any item, the list loop returns `None` or
raises. -/
theorem noHit_list : ∀ l, anyHitL l = false →
    scanL l = .ok none ∨ scanL l = .error ()
  | .nil, _ => Or.inl rfl
  | .cons x rest, h => by
    rw [scanL]
    rw [anyHitL] at h
    obtain ⟨hx, hr⟩ := Bool.or_eq_false_iff.mp h
    rcases noHit_val x hx with hv | hv
    · rw [hv]
      exact noHit_list rest hr
    · rw [hv]
      exact Or.inr rfl
/-- If no branch matches at or below any entry, the key scan returns
`None` or raises. -/
theorem noHit_dict : ∀ d, anyHitD d = false →
    scanD d = .ok none ∨ scanD d = .error ()
  | .nil, _ => Or.inl rfl
  | .cons k v rest, h => by
    rw [anyHitD] at h
    have h1 := Bool.or_eq_false_iff.mp h
    have h2 := Bool.or_eq_false_iff.mp h1.1
    have hkm := h2.1
    have hv := h2.2
    have hr := h1.2
    cases v with
    | str s =>
      cases hkmv : keyMatchHit k (.str s) with
      | some q => rw [hkmv] at hkm; simp at hkm
      | none =>
        rw [show scanD (.cons k (.str s) rest)
          = (match keyMatchHit k (.str s) with
             | some q => Except.ok (some q)
             | none => scanD rest) from rfl, hkmv]
        exact noHit_dict rest hr
    | list items =>
      cases hkmv : keyMatchHit k (.list items) with
      | some q => rw [hkmv] at hkm; simp at hkm
      | none =>
        rw [show scanD (.cons k (.list items) rest)
          = (match keyMatchHit k (.list items) with
             | some q => Except.ok (some q)
             | none =>
               match searchSql (.list items) with
               | .error e => .error e
               | .ok (some q) => if q.isEmpty = true then scanD rest
                   else .ok (some q)
               | .ok none => scanD rest) from rfl, hkmv]
        rcases noHit_val (.list items) hv with h3 | h3
        · rw [h3]
          exact noHit_dict rest hr
        · rw [h3]
          exact Or.inr rfl
    | dict dd =>
      cases hkmv : keyMatchHit k (.dict dd) with
      | some q => rw [hkmv] at hkm; simp at hkm
      | none =>
        rw [show scanD (.cons k (.dict dd) rest)
          = (match keyMatchHit k (.dict dd) with
             | some q => Except.ok (some q)
             | none =>
               match searchSql (.dict dd) with
               | .error e => .error e
               | .ok (some q) => if q.isEmpty = true then scanD rest
                   else .ok (some q)
               | .ok none => scanD rest) from rfl, hkmv]
        rcases noHit_val (.dict dd) hv with h3 | h3
        · rw [h3]
          exact noHit_dict rest hr
        · rw [h3]
          exact Or.inr rfl
end

/-- C8 counterexample: a trace with no matching branch anywhere
(`anyHit = false`) on which the extractor does not return `None` but
raises a `TypeError`: the structural descent subscripts a string
`actionGroupInvocationInput` that merely contains `"requestBody"`. -/
theorem C8_counterexample :
    anyHit (.dict (.cons "invocationInput".toList
        (.list (.cons (.dict (.cons "actionGroupInvocationInput".toList
          (.str "has requestBody inside".toList) .nil)) .nil)) .nil)) = false ∧
    extract_sql_query_from_trace (.dict (.cons "invocationInput".toList
        (.list (.cons (.dict (.cons "actionGroupInvocationInput".toList
          (.str "has requestBody inside".toList) .nil)) .nil)) .nil)) = .error () ∧
    (Except.error () : Except Unit (Option (List Char))) ≠ .ok none := by
  refine ⟨by decide, by decide, by decide⟩

/-- C8 (amended): the search is a single depth-first traversal in which,
at a dict node, a successful structural match preempts the fallback key
scan; a key-scan hit at an entry preempts recursion into the remaining
entries; the regex fallback applies exactly at string nodes; in a list
the first truthy extraction stops the loop; and when no branch matches
anywhere the search returns `None` — unless a malformed structural node
(a non-dict under the `requestBody` descent, or a truthy non-string
`sql_query` value) makes it raise a type error instead. -/
theorem C8_search_order :
    (∀ (entries : PyDict) (q : List Char), structCheck entries = .ok (some q) →
      searchSql (.dict entries) = .ok (some q)) ∧
    (∀ (k s : List Char) (rest : PyDict),
      (pyLower k = "sql_query".toList ∨ pyLower k = "query".toList ∨
        pyLower k = "sql".toList) → hasKw s = true →
      scanD (.cons k (.str s) rest) = .ok (some (cleanSql s))) ∧
    (∀ s : List Char, searchSql (.str s) = .ok (regexFallback s)) ∧
    (∀ (x : PyVal) (rest : PyList) (q : List Char),
      searchSql x = .ok (some q) → q ≠ [] →
      searchSql (.list (.cons x rest)) = .ok (some q)) ∧
    (∀ v : PyVal, anyHit v = false →
      searchSql v = .ok none ∨ searchSql v = .error ()) := by
  refine ⟨?_, ?_, ?_, ?_, noHit_val⟩
  · intro entries q h
    rw [searchSql, h]
  · intro k s rest hk hkw
    rw [scanD]
    rw [show keyMatchHit k (.str s) = some (cleanSql s) from by
      rw [keyMatchHit]
      rw [if_pos ⟨hk, hkw⟩]]
  · intro s
    rw [searchSql]
  · intro x rest q h hq
    rw [searchSql, scanL, h]
    dsimp only
    rw [if_neg (by simp [List.isEmpty_iff, hq])]

/-- Witness for C8's quantified parts at concrete traces. -/
theorem C8_search_order_witness :
    searchSql (.dict (mkStructTraceEntries
        [.dict (mkD [("name".toList, .str "sql_query".toList),
          ("value".toList, .str "SELECT 1;".toList)])]))
      = .ok (some "SELECT 1;".toList) ∧
    scanD (.cons "SQL".toList (.str "select x from y".toList) .nil)
      = .ok (some (cleanSql "select x from y".toList)) ∧
    searchSql (.str "hello".toList) = .ok (regexFallback "hello".toList) ∧
    searchSql (.list (.cons (.str "x SELECT 1; y".toList)
        (.cons (.str "DELETE 2;".toList) .nil)))
      = .ok (some "SELECT 1;".toList) ∧
    (searchSql (.str "nothing".toList) = .ok none ∨
      searchSql (.str "nothing".toList) = .error ()) :=
  ⟨C8_search_order.1 _ "SELECT 1;".toList (by decide),
   C8_search_order.2.1 "SQL".toList "select x from y".toList .nil
     (by decide) (by decide),
   C8_search_order.2.2.1 "hello".toList,
   C8_search_order.2.2.2.1 (.str "x SELECT 1; y".toList) _ "SELECT 1;".toList
     (by decide) (by decide),
   C8_search_order.2.2.2.2 (.str "nothing".toList) (by decide)⟩

lemma rtrim_eq_nil_iff {l : List Char} : rtrim l = [] ↔ allWs l = true := by
  induction l with
  | nil => simp [rtrim, allWs]
  | cons c t ih =>
    rw [rtrim]
    cases hr : rtrim t with
    | nil =>
      have hat : allWs t = true := ih.mp hr
      by_cases hc : pyWs c = true
      · rw [if_pos hc]
        constructor
        · intro _
          simp only [allWs, List.all_cons, hc, Bool.true_and]
          exact hat
        · intro _
          rfl
      · rw [if_neg hc]
        constructor
        · intro hcon
          exact absurd hcon (by simp)
        · intro hall
          simp only [allWs, List.all_cons, Bool.and_eq_true] at hall
          exact absurd hall.1 hc
    | cons r rs =>
      dsimp only
      constructor
      · intro hcon
        exact absurd hcon (by simp)
      · intro hall
        simp only [allWs, List.all_cons, Bool.and_eq_true] at hall
        have h0 : rtrim t = [] := ih.mpr hall.2
        rw [h0] at hr
        exact List.noConfusion hr

lemma ltrim_cons_ws {c : Char} {t : List Char} (h : pyWs c = true) :
    ltrim (c :: t) = ltrim t := by
  simp [ltrim, List.dropWhile_cons, h]

lemma ltrim_cons_nws {c : Char} {t : List Char} (h : pyWs c = false) :
    ltrim (c :: t) = c :: t := by
  simp [ltrim, List.dropWhile_cons, h]

lemma rtrim_cons_of_ne_nil {c : Char} {t : List Char} (h : rtrim t ≠ []) :
    rtrim (c :: t) = c :: rtrim t := by
  rw [rtrim]
  cases hr : rtrim t with
  | nil => exact absurd hr h
  | cons r rs => rfl

lemma rtrim_all_ws {l : List Char} (h : allWs l = true) : rtrim l = [] :=
  rtrim_eq_nil_iff.mpr h

lemma ltrim_all_ws {l : List Char} (h : allWs l = true) : ltrim l = [] := by
  induction l with
  | nil => rfl
  | cons c t ih =>
    simp only [allWs, List.all_cons, Bool.and_eq_true] at h
    rw [ltrim_cons_ws h.1]
    exact ih (by simp [allWs, h.2])

lemma ltrim_head_nws {l : List Char} :
    ltrim l = [] ∨ ∃ c t, ltrim l = c :: t ∧ pyWs c = false := by
  induction l with
  | nil => exact Or.inl rfl
  | cons c t ih =>
    by_cases hc : pyWs c = true
    · rw [ltrim_cons_ws hc]
      exact ih
    · rw [ltrim_cons_nws (by simpa using hc)]
      exact Or.inr ⟨c, t, rfl, by simpa using hc⟩

lemma ltrim_idem (l : List Char) : ltrim (ltrim l) = ltrim l := by
  rcases ltrim_head_nws (l := l) with h | ⟨c, t, h, hc⟩
  · rw [h]
    rfl
  · rw [h, ltrim_cons_nws hc]

lemma ltrim_append (a b : List Char) :
    ltrim (a ++ b) = if ltrim a = [] then ltrim b else ltrim a ++ b := by
  induction a with
  | nil => simp [ltrim]
  | cons c t ih =>
    by_cases hc : pyWs c = true
    · rw [List.cons_append, ltrim_cons_ws hc, ih, ltrim_cons_ws hc]
    · have hc' : pyWs c = false := by simpa using hc
      rw [List.cons_append, ltrim_cons_nws hc', ltrim_cons_nws hc']
      rw [if_neg (by simp)]
      simp

lemma ltrim_len_le (l : List Char) : (ltrim l).length ≤ l.length := by
  induction l with
  | nil => simp [ltrim]
  | cons c t ih =>
    by_cases hc : pyWs c = true
    · rw [ltrim_cons_ws hc]
      simp only [List.length_cons]
      omega
    · rw [ltrim_cons_nws (by simpa using hc)]

lemma rtrim_append_all_ws {w : List Char} (hw : allWs w = true) :
    ∀ x, rtrim (x ++ w) = rtrim x := by
  intro x
  induction x with
  | nil =>
    show rtrim w = rtrim []
    rw [rtrim_all_ws hw]
    rfl
  | cons c t ih =>
    rw [List.cons_append, rtrim, ih, rtrim]

lemma rtrim_append_ws (l : List Char) :
    ∃ w, l = rtrim l ++ w ∧ allWs w = true := by
  induction l with
  | nil => exact ⟨[], rfl, rfl⟩
  | cons c t ih =>
    obtain ⟨w, hw, hws⟩ := ih
    rw [rtrim]
    cases hr : rtrim t with
    | nil =>
      rw [hr] at hw
      by_cases hc : pyWs c = true
      · refine ⟨c :: w, ?_, ?_⟩
        · rw [if_pos hc]
          simp [hw]
        · simp only [allWs, List.all_cons, Bool.and_eq_true, hc, true_and]
          simpa [allWs] using hws
      · refine ⟨w, ?_, hws⟩
        rw [if_neg hc]
        simp [hw]
    | cons r rs =>
      refine ⟨w, ?_, hws⟩
      dsimp only
      rw [hr] at hw
      simp [hw]

lemma rtrim_idem (l : List Char) : rtrim (rtrim l) = rtrim l := by
  obtain ⟨w, hw, hws⟩ := rtrim_append_ws l
  conv_rhs => rw [hw]
  rw [rtrim_append_all_ws hws]

lemma ltrim_rtrim_of_ltrim_self {l : List Char} (h : ltrim l = l) :
    ltrim (rtrim l) = rtrim l := by
  obtain ⟨w, hw, hws⟩ := rtrim_append_ws l
  cases hrt : rtrim l with
  | nil => rfl
  | cons c t =>
    rw [hrt] at hw
    have hl : l = c :: (t ++ w) := by simpa using hw
    have hc : pyWs c = false := by
      by_contra hcc
      have hcc' : pyWs c = true := by simpa using hcc
      rw [hl, ltrim_cons_ws hcc'] at h
      have hlen := congrArg List.length h
      have hle := ltrim_len_le (t ++ w)
      simp only [List.length_cons] at hlen
      omega
    exact ltrim_cons_nws hc

lemma pyStrip_idem (l : List Char) : pyStrip (pyStrip l) = pyStrip l := by
  unfold pyStrip
  rw [ltrim_rtrim_of_ltrim_self (ltrim_idem l), rtrim_idem]

lemma pyStrip_ltrim (l : List Char) : pyStrip (ltrim l) = pyStrip l := by
  unfold pyStrip
  rw [ltrim_idem]

lemma pyStrip_rtrim (l : List Char) : pyStrip (rtrim l) = pyStrip l := by
  unfold pyStrip
  obtain ⟨w, hw, hws⟩ := rtrim_append_ws l
  conv_rhs => rw [hw]
  rw [ltrim_append]
  by_cases h0 : ltrim (rtrim l) = []
  · rw [if_pos h0, h0, ltrim_all_ws hws]
  · rw [if_neg h0, rtrim_append_all_ws hws]

lemma ltrim_append_ws (l : List Char) :
    ∃ w, l = w ++ ltrim l ∧ allWs w = true := by
  refine ⟨l.takeWhile pyWs, ?_, ?_⟩
  · rw [ltrim, List.takeWhile_append_dropWhile]
  · simp only [allWs, List.all_eq_true]
    intro x hx
    exact List.mem_takeWhile_imp hx

/-! ## Split/join lemmas (towards C3) -/
lemma splitC_ne_nil (sep : Char) (l : List Char) : splitC sep l ≠ [] := by
  cases l with
  | nil => simp [splitC]
  | cons c t =>
    rw [splitC]
    by_cases hc : c = sep
    · simp [hc]
    · rw [if_neg hc]
      cases splitC sep t with
      | nil => simp
      | cons h tl => simp

lemma joinC_splitC (sep : Char) (l : List Char) : joinC sep (splitC sep l) = l := by
  induction l with
  | nil => rfl
  | cons c t ih =>
    rw [splitC]
    by_cases hc : c = sep
    · rw [if_pos hc, joinC, if_neg (splitC_ne_nil sep t), ih, hc]
      rfl
    · rw [if_neg hc]
      cases hs : splitC sep t with
      | nil => exact absurd hs (splitC_ne_nil sep t)
      | cons h tl =>
        rw [hs] at ih
        cases tl with
        | nil =>
          rw [joinC, if_pos rfl]
          rw [joinC, if_pos rfl] at ih
          rw [ih]
        | cons h2 tl2 =>
          rw [joinC, if_neg (by simp)]
          rw [joinC, if_neg (by simp)] at ih
          rw [List.cons_append, ih]

lemma mem_splitC_no_sep (sep : Char) (l : List Char) :
    ∀ line ∈ splitC sep l, sep ∉ line := by
  induction l with
  | nil =>
    intro line hl
    simp [splitC] at hl
    simp [hl]
  | cons c t ih =>
    intro line hl
    rw [splitC] at hl
    by_cases hc : c = sep
    · rw [if_pos hc] at hl
      rcases List.mem_cons.mp hl with rfl | hm
      · simp
      · exact ih line hm
    · rw [if_neg hc] at hl
      cases hs : splitC sep t with
      | nil => exact absurd hs (splitC_ne_nil sep t)
      | cons h tl =>
        rw [hs] at hl
        rcases List.mem_cons.mp hl with rfl | hm
        · intro hmem
          rcases List.mem_cons.mp hmem with rfl | hm2
          · exact hc rfl
          · exact ih h (by rw [hs]; simp) hm2
        · exact ih line (by rw [hs]; simp [hm])

lemma splitC_no_sep {sep : Char} {l : List Char} (h : sep ∉ l) :
    splitC sep l = [l] := by
  induction l with
  | nil => rfl
  | cons c t iht =>
    rw [splitC, if_neg (by intro hc; exact h (by simp [hc]))]
    rw [iht (by intro hm; exact h (by simp [hm]))]

lemma splitC_append_sep {sep : Char} {a : List Char} (h : sep ∉ a) (r : List Char) :
    splitC sep (a ++ sep :: r) = a :: splitC sep r := by
  induction a with
  | nil => simp [splitC]
  | cons c a' ih =>
    rw [List.cons_append, splitC,
      if_neg (by intro hc; exact h (by simp [hc]))]
    rw [ih (by intro hm; exact h (by simp [hm]))]

lemma splitC_joinC {sep : Char} : ∀ {L : List (List Char)},
    (∀ line ∈ L, sep ∉ line) → L ≠ [] → splitC sep (joinC sep L) = L := by
  intro L
  induction L with
  | nil => intro _ hne; exact absurd rfl hne
  | cons l ls ih =>
    intro hno _
    cases ls with
    | nil =>
      rw [joinC, if_pos rfl, splitC_no_sep (hno l (by simp))]
    | cons l2 ls2 =>
      rw [joinC, if_neg (by simp), splitC_append_sep (hno l (by simp))]
      rw [ih (fun line hl => hno line (by simp [hl])) (by simp)]

lemma splitC_eq_nil_singleton {sep : Char} {l : List Char}
    (h : splitC sep l = [[]]) : l = [] := by
  cases l with
  | nil => rfl
  | cons c t =>
    rw [splitC] at h
    by_cases hc : c = sep
    · rw [if_pos hc] at h
      have := splitC_ne_nil sep t
      simp at h
      exact absurd h this
    · rw [if_neg hc] at h
      cases hs : splitC sep t with
      | nil => exact absurd hs (splitC_ne_nil sep t)
      | cons hd tl =>
        rw [hs] at h
        simp at h

lemma ltrimLines_single (l : List Char) : ltrimLines [l] = [ltrim l] := by
  rw [ltrimLines, if_pos rfl]

lemma ltrimLines_cons_cons (l l2 : List Char) (ls : List (List Char)) :
    ltrimLines (l :: l2 :: ls)
      = if allWs l = true then ltrimLines (l2 :: ls) else ltrim l :: l2 :: ls := by
  rw [ltrimLines, if_neg (by simp)]

lemma rtrimLines_single (l : List Char) : rtrimLines [l] = [rtrim l] := by
  rw [rtrimLines, if_pos rfl]

lemma rtrimLines_cons_cons (l l2 : List Char) (ls : List (List Char)) :
    rtrimLines (l :: l2 :: ls)
      = if rtrimLines (l2 :: ls) = [[]] then [rtrim l]
        else l :: rtrimLines (l2 :: ls) := by
  rw [rtrimLines, if_neg (by simp)]

lemma ltrimLines_cons_ws {c : Char} {h : List Char} {tl : List (List Char)}
    (hc : pyWs c = true) : ltrimLines ((c :: h) :: tl) = ltrimLines (h :: tl) := by
  cases tl with
  | nil =>
    rw [ltrimLines_single, ltrimLines_single, ltrim_cons_ws hc]
  | cons t2 tl2 =>
    rw [ltrimLines_cons_cons, ltrimLines_cons_cons]
    have hall : allWs (c :: h) = true ↔ allWs h = true := by
      simp [allWs, List.all_cons, hc]
    by_cases hw : allWs h = true
    · rw [if_pos (hall.mpr hw), if_pos hw]
    · rw [if_neg (fun hh => hw (hall.mp hh)), if_neg hw, ltrim_cons_ws hc]

lemma splitNl_cons_nl (t : List Char) : splitNl ('\n' :: t) = [] :: splitNl t := by
  simp [splitNl, splitC]

lemma splitNl_cons_nnl {c : Char} (hnl : ¬ c = '\n') (t : List Char) :
    ∃ h tl, splitNl t = h :: tl ∧ splitNl (c :: t) = (c :: h) :: tl := by
  cases hs : splitNl t with
  | nil => exact absurd hs (splitC_ne_nil '\n' t)
  | cons h tl =>
    refine ⟨h, tl, rfl, ?_⟩
    simp only [splitNl, splitC, if_neg hnl]
    rw [show splitC '\n' t = h :: tl from hs]

lemma splitNl_ltrim (x : List Char) : splitNl (ltrim x) = ltrimLines (splitNl x) := by
  induction x with
  | nil => rfl
  | cons c t ih =>
    by_cases hc : pyWs c = true
    · rw [ltrim_cons_ws hc, ih]
      by_cases hnl : c = '\n'
      · subst hnl
        rw [splitNl_cons_nl]
        cases hs : splitNl t with
        | nil => exact absurd hs (splitC_ne_nil '\n' t)
        | cons h tl =>
          rw [ltrimLines_cons_cons, if_pos (show allWs [] = true from rfl)]
      · obtain ⟨h, tl, hs, hc2⟩ := splitNl_cons_nnl hnl t
        rw [hc2, hs]
        exact (ltrimLines_cons_ws hc).symm
    · have hc' : pyWs c = false := by simpa using hc
      have hnl : ¬ c = '\n' := fun hh => by
        rw [hh] at hc'
        simp [pyWs] at hc'
      rw [ltrim_cons_nws hc']
      obtain ⟨h, tl, hs, hc2⟩ := splitNl_cons_nnl hnl t
      rw [hc2]
      cases tl with
      | nil => rw [ltrimLines_single, ltrim_cons_nws hc']
      | cons t2 tl2 =>
        rw [ltrimLines_cons_cons,
          if_neg (by simp [allWs, List.all_cons, hc']), ltrim_cons_nws hc']

/-- Witness for C7 with one skipped item before the `sql_query` pair. -/
theorem C7_structural_sql_extraction_witness :
    extract_sql_query_from_trace (mkStructTrace
        ([.dict (mkD [("name".toList, .str "foo".toList)])] ++
          .dict (mkD [("name".toList, .str "sql_query".toList),
            ("value".toList, .str "SELECT\\n*\\nFROM t".toList)]) :: []))
      = .ok (some "SELECT\n*\nFROM t".toList) :=
  C7_structural_sql_extraction
    [.dict (mkD [("name".toList, .str "foo".toList)])] [] (by decide)

/-! ## subNNN structure lemmas (towards C3) -/
lemma allWs_takeWhile (l : List Char) : allWs (l.takeWhile pyWs) = true := by
  simp only [allWs, List.all_eq_true]
  intro x hx
  exact List.mem_takeWhile_imp hx

lemma takeWhile_append_allWs : ∀ {w : List Char}, allWs w = true → ∀ (r : List Char),
    (w ++ r).takeWhile pyWs = w ++ r.takeWhile pyWs := by
  intro w
  induction w with
  | nil => intro _ r; rfl
  | cons c t ih =>
    intro hw r
    simp only [allWs, List.all_cons, Bool.and_eq_true] at hw
    rw [List.cons_append, List.takeWhile_cons, if_pos hw.1, ih hw.2 r,
      List.cons_append]

lemma takeWhile_dropWhile_nil (p : Char → Bool) (l : List Char) :
    (l.dropWhile p).takeWhile p = [] := by
  induction l with
  | nil => rfl
  | cons c t ih =>
    rw [List.dropWhile_cons]
    by_cases h : p c
    · rw [if_pos h]; exact ih
    · rw [if_neg h, List.takeWhile_cons, if_neg h]

lemma nl_not_mem_afterLastNl (l : List Char) : '\n' ∉ afterLastNl l := by
  intro hm
  simp only [afterLastNl, List.mem_reverse] at hm
  have := List.mem_takeWhile_imp hm
  simp at this

lemma mem_afterLastNl {c : Char} {l : List Char} (h : c ∈ afterLastNl l) : c ∈ l := by
  simp only [afterLastNl, List.mem_reverse] at h
  have := (List.takeWhile_sublist _).subset h
  simpa using this

lemma allWs_afterLastNl {l : List Char} (h : allWs l = true) :
    allWs (afterLastNl l) = true := by
  simp only [allWs, List.all_eq_true] at h ⊢
  intro c hc
  exact h c (mem_afterLastNl hc)

lemma drop_run_eq_dropWhile (t : List Char) :
    t.drop (t.takeWhile pyWs).length = t.dropWhile pyWs := by
  have h1 : t.takeWhile pyWs ++ t.dropWhile pyWs = t :=
    List.takeWhile_append_dropWhile pyWs t
  calc t.drop (t.takeWhile pyWs).length
      = (t.takeWhile pyWs ++ t.dropWhile pyWs).drop (t.takeWhile pyWs).length := by
        rw [h1]
    _ = t.dropWhile pyWs := List.drop_left _ _

lemma subNNN_allWs_front : ∀ {w : List Char}, allWs w = true → w.count '\n' ≤ 1 →
    ∀ {r : List Char}, r.takeWhile pyWs = [] → subNNN (w ++ r) = w ++ subNNN r := by
  intro w
  induction w with
  | nil => intro _ _ r _; rfl
  | cons c t ih =>
    intro hw hcount r hr
    simp only [allWs, List.all_cons, Bool.and_eq_true] at hw
    have hrun : (t ++ r).takeWhile pyWs = t := by
      rw [takeWhile_append_allWs hw.2, hr, List.append_nil]
    have hct : t.count '\n' ≤ 1 := by
      by_cases hc : c = '\n'
      · subst hc
        simp only [List.count_cons, if_pos rfl] at hcount
        omega
      · simpa [List.count_cons, hc] using hcount
    have hnom : ¬(c = '\n' ∧ 2 ≤ ((t ++ r).takeWhile pyWs).count '\n') := by
      rintro ⟨rfl, h2⟩
      rw [hrun] at h2
      simp only [List.count_cons, if_pos rfl] at hcount
      omega
    rw [List.cons_append, subNNN_cons_nomatch hnom, ih hw.2 hct hr,
      List.cons_append]

lemma subNNN_takeWhile_nil {r : List Char} (hr : r.takeWhile pyWs = []) :
    (subNNN r).takeWhile pyWs = [] := by
  cases r with
  | nil => rfl
  | cons d rt =>
    rw [List.takeWhile_cons] at hr
    by_cases hd : pyWs d = true
    · rw [if_pos hd] at hr; simp at hr
    · have hd' : pyWs d = false := by simpa using hd
      have hdn : ¬ d = '\n' := by
        intro h
        rw [h] at hd'
        simp [pyWs] at hd'
      rw [subNNN_cons_nomatch (by rintro ⟨rfl, -⟩; exact hdn rfl)]
      rw [List.takeWhile_cons, if_neg (by simp [hd'])]

lemma subNNN_takeWhile (t : List Char) (h : (t.takeWhile pyWs).count '\n' ≤ 1) :
    (subNNN t).takeWhile pyWs = t.takeWhile pyWs := by
  have hdw : (t.dropWhile pyWs).takeWhile pyWs = [] := takeWhile_dropWhile_nil pyWs t
  conv_lhs => rw [show t = t.takeWhile pyWs ++ t.dropWhile pyWs from
    (List.takeWhile_append_dropWhile pyWs t).symm]
  rw [subNNN_allWs_front (allWs_takeWhile t) h hdw,
    takeWhile_append_allWs (allWs_takeWhile t),
    subNNN_takeWhile_nil hdw, List.append_nil]

lemma afterMatch_takeWhile (t : List Char) :
    (afterMatch t).takeWhile pyWs = afterLastNl (t.takeWhile pyWs) := by
  rw [afterMatch, drop_run_eq_dropWhile,
    takeWhile_append_allWs (allWs_afterLastNl (allWs_takeWhile t)),
    takeWhile_dropWhile_nil, List.append_nil]

lemma afterMatch_run_count (t : List Char) :
    ((afterMatch t).takeWhile pyWs).count '\n' = 0 := by
  rw [afterMatch_takeWhile, List.count_eq_zero]
  exact nl_not_mem_afterLastNl _

lemma subNNN_noTriple : ∀ n, ∀ t : List Char, t.length ≤ n →
    hasTriple (subNNN t) = false := by
  intro n
  induction n with
  | zero =>
    intro t ht
    have h0 : t = [] := List.length_eq_zero.mp (Nat.le_zero.mp ht)
    subst h0; rfl
  | succ n ih =>
    intro t ht
    cases t with
    | nil => rfl
    | cons c t' =>
      simp only [List.length_cons] at ht
      by_cases hm : c = '\n' ∧ 2 ≤ (t'.takeWhile pyWs).count '\n'
      · rw [subNNN_cons_match hm]
        have hrun : ((subNNN (afterMatch t')).takeWhile pyWs).count '\n' = 0 := by
          rw [subNNN_takeWhile _ (by simp [afterMatch_run_count])]
          exact afterMatch_run_count t'
        rw [hasTriple, if_neg ?h1, hasTriple, if_neg ?h2]
        · exact ih _ (le_trans (afterMatch_len_le t') (by omega))
        case h1 =>
          rintro ⟨-, h2⟩
          rw [List.takeWhile_cons, if_pos (by decide : pyWs '\n' = true)] at h2
          simp [List.count_cons, hrun] at h2
        case h2 =>
          rintro ⟨-, h2⟩
          omega
      · rw [subNNN_cons_nomatch hm]
        rw [hasTriple, if_neg ?hh]
        · exact ih t' (by omega)
        case hh =>
          rintro ⟨rfl, h2⟩
          have hle : (t'.takeWhile pyWs).count '\n' ≤ 1 := by
            by_contra hgt
            exact hm ⟨rfl, by omega⟩
          rw [subNNN_takeWhile t' hle] at h2
          omega

lemma subNNN_id_of_noTriple : ∀ {t : List Char}, hasTriple t = false → subNNN t = t := by
  intro t
  induction t with
  | nil => intro _; rfl
  | cons c t' ih =>
    intro h
    rw [hasTriple] at h
    by_cases hm : c = '\n' ∧ 2 ≤ (t'.takeWhile pyWs).count '\n'
    · rw [if_pos hm] at h
      exact absurd h (by simp)
    · rw [if_neg hm] at h
      rw [subNNN_cons_nomatch hm, ih h]

lemma allWs_ltrim (l : List Char) : allWs (ltrim l) = allWs l := by
  conv_rhs => rw [show l = l.takeWhile pyWs ++ l.dropWhile pyWs from
    (List.takeWhile_append_dropWhile pyWs l).symm]
  simp only [ltrim, allWs, List.all_append]
  have h := allWs_takeWhile l
  simp only [allWs] at h
  rw [h, Bool.true_and]

lemma allWs_rtrim (l : List Char) : allWs (rtrim l) = allWs l := by
  obtain ⟨w, hw, hws⟩ := rtrim_append_ws l
  conv_rhs => rw [hw]
  simp only [allWs, List.all_append]
  have h : w.all pyWs = true := by simpa [allWs] using hws
  rw [h, Bool.and_true]

lemma pyStrip_eq_nil_iff {l : List Char} : pyStrip l = [] ↔ allWs l = true := by
  unfold pyStrip
  rw [rtrim_eq_nil_iff, allWs_ltrim]

lemma allWs_subNNN_false : ∀ n, ∀ t : List Char, t.length ≤ n →
    allWs t = false → allWs (subNNN t) = false := by
  intro n
  induction n with
  | zero =>
    intro t ht h
    have h0 : t = [] := List.length_eq_zero.mp (Nat.le_zero.mp ht)
    subst h0
    simp [allWs] at h
  | succ n ih =>
    intro t ht h
    cases t with
    | nil => simp [allWs] at h
    | cons c t' =>
      simp only [List.length_cons] at ht
      by_cases hm : c = '\n' ∧ 2 ≤ (t'.takeWhile pyWs).count '\n'
      · rw [subNNN_cons_match hm]
        have h' : allWs t' = false := by
          obtain ⟨rfl, -⟩ := hm
          rw [allWs, List.all_cons, show pyWs '\n' = true from by decide,
            Bool.true_and] at h
          exact h
        have ham : allWs (afterMatch t') = false := by
          rw [afterMatch, drop_run_eq_dropWhile]
          simp only [allWs, List.all_append]
          have h2 : (t'.dropWhile pyWs).all pyWs = false := by
            have h3 := allWs_ltrim t'
            simp only [allWs, ltrim] at h3
            rw [h3]
            simpa [allWs] using h'
          rw [h2, Bool.and_false]
        have hs := ih (afterMatch t') (le_trans (afterMatch_len_le t') (by omega)) ham
        simp only [allWs, List.all_cons] at hs ⊢
        rw [hs]
        simp
      · rw [subNNN_cons_nomatch hm]
        simp only [allWs, List.all_cons] at h ⊢
        by_cases hc : pyWs c = true
        · rw [hc, Bool.true_and] at h
          have hs := ih t' (by omega) h
          simp only [allWs] at hs
          rw [hc, Bool.true_and, hs]
        · have hc' : pyWs c = false := by simpa using hc
          rw [hc', Bool.false_and]

lemma fixSep_eq (l : List Char) :
    fixSep l = if isSepLine l then pipeFrame (removeWs l) else l := rfl

lemma joinC_single (sep : Char) (l : List Char) : joinC sep [l] = l := by
  rw [joinC, if_pos rfl]

lemma joinC_cons_cons (sep : Char) (l l2 : List Char) (ls : List (List Char)) :
    joinC sep (l :: l2 :: ls) = l ++ sep :: joinC sep (l2 :: ls) := by
  rw [joinC, if_neg (by simp)]

lemma hasTriple_append_nlfree : ∀ {l : List Char}, '\n' ∉ l →
    ∀ (r : List Char), hasTriple (l ++ r) = hasTriple r := by
  intro l
  induction l with
  | nil => intro _ r; rfl
  | cons c t ih =>
    intro hnl r
    have hc : ¬ c = '\n' := by
      intro h
      exact hnl (by simp [h])
    rw [List.cons_append, hasTriple, if_neg (by rintro ⟨rfl, -⟩; exact hc rfl)]
    exact ih (fun hm => hnl (by simp [hm])) r

lemma count_nl_takeWhile_nlfree {l : List Char} (hnl : '\n' ∉ l) :
    (l.takeWhile pyWs).count '\n' = 0 := by
  rw [List.count_eq_zero]
  intro hm
  exact hnl ((List.takeWhile_sublist _).subset hm)

lemma takeWhile_append_not_allWs : ∀ {l : List Char}, allWs l = false →
    ∀ (r : List Char), (l ++ r).takeWhile pyWs = l.takeWhile pyWs := by
  intro l
  induction l with
  | nil => intro h r; simp [allWs] at h
  | cons c t ih =>
    intro h r
    simp only [allWs, List.all_cons] at h
    by_cases hc : pyWs c = true
    · rw [hc, Bool.true_and] at h
      rw [List.cons_append, List.takeWhile_cons, if_pos hc, List.takeWhile_cons,
        if_pos hc, ih h r]
    · have hc' : pyWs c = false := by simpa using hc
      rw [List.cons_append, List.takeWhile_cons, if_neg (by simp [hc']),
        List.takeWhile_cons, if_neg (by simp [hc'])]

lemma run_count_oneNl : ∀ (L : List (List Char)), (∀ l ∈ L, '\n' ∉ l) →
    (1 ≤ ((joinNl L).takeWhile pyWs).count '\n' ↔ oneNl L = true) := by
  intro L hnl
  match L with
  | [] => simp [joinNl, joinC, oneNl]
  | [l] =>
    rw [joinNl, joinC_single, count_nl_takeWhile_nlfree (hnl l (by simp))]
    simp [oneNl]
  | l :: l2 :: ls =>
    rw [joinNl, joinC_cons_cons]
    by_cases hw : allWs l = true
    · constructor
      · intro _
        exact hw
      · intro _
        rw [takeWhile_append_allWs hw, List.takeWhile_cons,
          if_pos (by decide : pyWs '\n' = true), List.count_append]
        have hcc : ('\n' :: (joinC '\n' (l2 :: ls)).takeWhile pyWs).count '\n'
            = ((joinC '\n' (l2 :: ls)).takeWhile pyWs).count '\n' + 1 := by
          simp [List.count_cons]
        rw [hcc]
        omega
    · have hw' : allWs l = false := by simpa using hw
      rw [takeWhile_append_not_allWs hw', count_nl_takeWhile_nlfree (hnl l (by simp))]
      constructor
      · intro h
        omega
      · intro ho
        have hx : allWs l = true := ho
        rw [hw'] at hx
        simp at hx

lemma run_count_twoNl : ∀ (L : List (List Char)), (∀ l ∈ L, '\n' ∉ l) →
    (2 ≤ ((joinNl L).takeWhile pyWs).count '\n' ↔ twoNl L = true) := by
  intro L hnl
  match L with
  | [] => simp [joinNl, joinC, twoNl]
  | [l] =>
    rw [joinNl, joinC_single, count_nl_takeWhile_nlfree (hnl l (by simp))]
    simp [twoNl]
  | l :: l2 :: ls =>
    rw [joinNl, joinC_cons_cons]
    by_cases hw : allWs l = true
    · rw [takeWhile_append_allWs hw, List.takeWhile_cons,
        if_pos (by decide : pyWs '\n' = true), List.count_append,
        List.count_eq_zero.mpr (hnl l (by simp))]
      have hcc : ('\n' :: (joinC '\n' (l2 :: ls)).takeWhile pyWs).count '\n'
          = ((joinC '\n' (l2 :: ls)).takeWhile pyWs).count '\n' + 1 := by
        simp [List.count_cons]
      rw [hcc]
      have h1 := run_count_oneNl (l2 :: ls) (fun x hx => hnl x (by simp [hx]))
      rw [joinNl] at h1
      constructor
      · intro h2
        have ho : oneNl (l2 :: ls) = true := h1.mp (by omega)
        cases ls with
        | nil => simp [oneNl] at ho
        | cons l3 ls' =>
          have hw2 : allWs l2 = true := ho
          show (allWs l && allWs l2) = true
          rw [hw, hw2]
          rfl
      · intro h2
        cases ls with
        | nil => simp [twoNl] at h2
        | cons l3 ls' =>
          have hw2 : allWs l2 = true := by
            have h4 := (by simpa using
              (show (allWs l && allWs l2) = true from h2) :
                allWs l = true ∧ allWs l2 = true)
            exact h4.2
          have := h1.mpr (show oneNl (l2 :: l3 :: ls') = true from hw2)
          omega
    · have hw' : allWs l = false := by simpa using hw
      rw [takeWhile_append_not_allWs hw', count_nl_takeWhile_nlfree (hnl l (by simp))]
      constructor
      · intro h
        omega
      · intro h2
        cases ls with
        | nil => simp [twoNl] at h2
        | cons l3 ls' =>
          have hx : allWs l = true := by
            have h3 : (allWs l && allWs l2) = true := h2
            have h4 := (by simpa using h3 : allWs l = true ∧ allWs l2 = true)
            exact h4.1
          rw [hw'] at hx
          simp at hx

lemma hasTriple_joinNl : ∀ (L : List (List Char)), (∀ l ∈ L, '\n' ∉ l) →
    hasTriple (joinNl L) = hasTripleL L
  | [] => fun _ => rfl
  | [l] => fun hnl => by
    rw [joinNl, joinC_single,
      show hasTriple l = hasTriple (l ++ []) from by rw [List.append_nil],
      hasTriple_append_nlfree (hnl l (by simp))]
    rfl
  | l :: l2 :: ls => fun hnl => by
    rw [joinNl, joinC_cons_cons, hasTriple_append_nlfree (hnl l (by simp)),
      hasTriple]
    have h2 := run_count_twoNl (l2 :: ls) (fun x hx => hnl x (by simp [hx]))
    rw [joinNl] at h2
    have hrec := hasTriple_joinNl (l2 :: ls) (fun x hx => hnl x (by simp [hx]))
    rw [joinNl] at hrec
    by_cases hc : 2 ≤ ((joinC '\n' (l2 :: ls)).takeWhile pyWs).count '\n'
    · rw [if_pos ⟨rfl, hc⟩, hasTripleL, h2.mp hc, Bool.true_or]
    · rw [if_neg (by rintro ⟨-, hcc⟩; exact hc hcc), hrec, hasTripleL]
      have ht : twoNl (l2 :: ls) = false := by
        by_contra hb
        exact hc (h2.mpr (by simpa using hb))
      rw [ht, Bool.false_or]

/-! ## fixSep structure lemmas (towards C3) -/
lemma pipeFrame_head (a : List Char) : (pipeFrame a).head? = some '|' := by
  simp only [pipeFrame]
  by_cases h0 : a.head? = some '|'
  · rw [if_pos h0]
    by_cases h1 : a.getLast? = some '|'
    · rw [if_pos h1]
      exact h0
    · rw [if_neg h1]
      cases a with
      | nil => simp at h0
      | cons x xs =>
        simp only [List.head?_cons, Option.some.injEq] at h0
        simp only [List.cons_append, List.head?_cons, h0]
  · rw [if_neg h0]
    by_cases h1 : ('|' :: a).getLast? = some '|'
    · rw [if_pos h1]
      rfl
    · rw [if_neg h1]
      rfl

lemma pipeFrame_last (a : List Char) : (pipeFrame a).getLast? = some '|' := by
  simp only [pipeFrame]
  by_cases h1 : (if a.head? = some '|' then a else '|' :: a).getLast? = some '|'
  · rw [if_pos h1]
    exact h1
  · rw [if_neg h1, List.getLast?_concat]

lemma mem_pipeFrame {c : Char} {a : List Char} (h : c ∈ pipeFrame a) :
    c ∈ a ∨ c = '|' := by
  simp only [pipeFrame] at h
  by_cases h1 : (if a.head? = some '|' then a else '|' :: a).getLast? = some '|'
  · rw [if_pos h1] at h
    by_cases h0 : a.head? = some '|'
    · rw [if_pos h0] at h
      exact Or.inl h
    · rw [if_neg h0] at h
      rcases List.mem_cons.mp h with rfl | h2
      · exact Or.inr rfl
      · exact Or.inl h2
  · rw [if_neg h1] at h
    rcases List.mem_append.mp h with h2 | h2
    · by_cases h0 : a.head? = some '|'
      · rw [if_pos h0] at h2
        exact Or.inl h2
      · rw [if_neg h0] at h2
        rcases List.mem_cons.mp h2 with rfl | h3
        · exact Or.inr rfl
        · exact Or.inl h3
    · simp at h2
      exact Or.inr h2

lemma pipe_mem_pipeFrame (a : List Char) : '|' ∈ pipeFrame a := by
  have h := pipeFrame_head a
  cases hp : pipeFrame a with
  | nil => rw [hp] at h; simp at h
  | cons x xs =>
    rw [hp] at h
    simp only [List.head?_cons, Option.some.injEq] at h
    simp [h]

lemma pipeFrame_framed {a : List Char} (hh : a.head? = some '|')
    (hl : a.getLast? = some '|') : pipeFrame a = a := by
  simp only [pipeFrame]
  rw [if_pos hh, if_pos hl]

lemma isSepLine_not_allWs {l : List Char} (h : isSepLine l = true) :
    allWs l = false := by
  by_contra hb
  have hb' : allWs l = true := by simpa using hb
  rw [isSepLine, pyStrip_eq_nil_iff.mpr hb'] at h
  simp at h

lemma allWs_fixSep (l : List Char) : allWs (fixSep l) = allWs l := by
  rw [fixSep_eq]
  by_cases hs : isSepLine l = true
  · rw [if_pos hs, isSepLine_not_allWs hs]
    by_contra hb
    have hb' : allWs (pipeFrame (removeWs l)) = true := by simpa using hb
    simp only [allWs, List.all_eq_true] at hb'
    have hx := hb' '|' (pipe_mem_pipeFrame _)
    exact absurd hx (by decide)
  · rw [if_neg hs]

lemma mem_fixSep {c : Char} {l : List Char} (h : c ∈ fixSep l) :
    c ∈ l ∨ c = '|' := by
  rw [fixSep_eq] at h
  by_cases hs : isSepLine l = true
  · rw [if_pos hs] at h
    rcases mem_pipeFrame h with h1 | h1
    · exact Or.inl (List.mem_of_mem_filter h1)
    · exact Or.inr h1
  · rw [if_neg hs] at h
    exact Or.inl h

lemma nl_not_mem_fixSep {l : List Char} (h : '\n' ∉ l) : '\n' ∉ fixSep l := by
  intro hm
  rcases mem_fixSep hm with h1 | h1
  · exact h h1
  · exact absurd h1 (by decide)

lemma sep_fixed_no_ws {l : List Char} (hs : isSepLine l = true) (hf : fixSep l = l) :
    ∀ c ∈ l, pyWs c = false := by
  intro c hc
  rw [← hf, fixSep_eq, if_pos hs] at hc
  rcases mem_pipeFrame hc with h1 | h1
  · simpa using (List.mem_filter.mp h1).2
  · rw [h1]
    decide

lemma isSepLine_ltrim (l : List Char) : isSepLine (ltrim l) = isSepLine l := by
  rw [isSepLine, isSepLine, pyStrip_ltrim]

lemma isSepLine_rtrim (l : List Char) : isSepLine (rtrim l) = isSepLine l := by
  rw [isSepLine, isSepLine, pyStrip_rtrim]

lemma ltrim_no_ws {l : List Char} (h : ∀ c ∈ l, pyWs c = false) : ltrim l = l := by
  cases l with
  | nil => rfl
  | cons c t => exact ltrim_cons_nws (h c (by simp))

lemma rtrim_no_ws : ∀ {l : List Char}, (∀ c ∈ l, pyWs c = false) → rtrim l = l := by
  intro l
  induction l with
  | nil => intro _; rfl
  | cons c t ih =>
    intro h
    rw [rtrim, ih (fun x hx => h x (by simp [hx]))]
    cases t with
    | nil =>
      dsimp only
      rw [if_neg (by simp [h c (by simp)])]
    | cons x xs => dsimp only

lemma fixSep_fixed_ltrim {l : List Char} (hf : fixSep l = l) :
    fixSep (ltrim l) = ltrim l := by
  by_cases hs : isSepLine l = true
  · rw [ltrim_no_ws (sep_fixed_no_ws hs hf), hf]
  · have hs' : ¬ isSepLine (ltrim l) = true := by
      rw [isSepLine_ltrim]
      exact hs
    rw [fixSep_eq, if_neg hs']

lemma fixSep_fixed_rtrim {l : List Char} (hf : fixSep l = l) :
    fixSep (rtrim l) = rtrim l := by
  by_cases hs : isSepLine l = true
  · rw [rtrim_no_ws (sep_fixed_no_ws hs hf), hf]
  · have hs' : ¬ isSepLine (rtrim l) = true := by
      rw [isSepLine_rtrim]
      exact hs
    rw [fixSep_eq, if_neg hs']

lemma fixSep_idem (l : List Char) : fixSep (fixSep l) = fixSep l := by
  by_cases hs : isSepLine l = true
  · have h : fixSep l = pipeFrame (removeWs l) := by rw [fixSep_eq, if_pos hs]
    rw [h]
    by_cases hs2 : isSepLine (pipeFrame (removeWs l)) = true
    · rw [fixSep_eq, if_pos hs2]
      have hnw : ∀ c ∈ pipeFrame (removeWs l), pyWs c = false := by
        intro c hc
        rcases mem_pipeFrame hc with h1 | h1
        · simpa using (List.mem_filter.mp h1).2
        · rw [h1]
          decide
      have hrm : removeWs (pipeFrame (removeWs l)) = pipeFrame (removeWs l) := by
        rw [removeWs, List.filter_eq_self]
        intro c hc
        simp [hnw c hc]
      rw [hrm]
      exact pipeFrame_framed (pipeFrame_head _) (pipeFrame_last _)
    · rw [fixSep_eq, if_neg hs2]
  · have h : fixSep l = l := by rw [fixSep_eq, if_neg hs]
    rw [h, h]

/-! ## hasTripleL stability under the strip (towards C3) -/
lemma twoNl_map_fixSep (L : List (List Char)) : twoNl (L.map fixSep) = twoNl L := by
  match L with
  | [] => rfl
  | [l] => rfl
  | [l, l2] => rfl
  | l :: l2 :: l3 :: ls =>
    show (allWs (fixSep l) && allWs (fixSep l2)) = (allWs l && allWs l2)
    rw [allWs_fixSep, allWs_fixSep]

lemma hasTripleL_map_fixSep : ∀ (L : List (List Char)),
    hasTripleL (L.map fixSep) = hasTripleL L
  | [] => rfl
  | [l] => rfl
  | l :: l2 :: ls => by
    show hasTripleL (fixSep l :: fixSep l2 :: ls.map fixSep) = _
    rw [hasTripleL, hasTripleL]
    rw [show fixSep l2 :: ls.map fixSep = (l2 :: ls).map fixSep from rfl]
    rw [twoNl_map_fixSep, hasTripleL_map_fixSep (l2 :: ls)]

lemma hasTripleL_cons_false {l : List Char} {rest : List (List Char)}
    (h : hasTripleL (l :: rest) = false) : hasTripleL rest = false := by
  cases rest with
  | nil => rfl
  | cons l2 ls =>
    rw [hasTripleL] at h
    exact (Bool.or_eq_false_iff.mp h).2

lemma twoNl_cons_false {l : List Char} {rest : List (List Char)}
    (h : hasTripleL (l :: rest) = false) : twoNl rest = false := by
  cases rest with
  | nil => rfl
  | cons l2 ls =>
    rw [hasTripleL] at h
    exact (Bool.or_eq_false_iff.mp h).1

lemma hasTripleL_first_indep (l l' : List Char) (rest : List (List Char)) :
    hasTripleL (l :: rest) = hasTripleL (l' :: rest) := by
  cases rest with
  | nil => rfl
  | cons l2 ls => rw [hasTripleL, hasTripleL]

lemma hasTripleL_ltrimLines : ∀ {L : List (List Char)}, hasTripleL L = false →
    hasTripleL (ltrimLines L) = false := by
  intro L
  induction L with
  | nil => intro _; rfl
  | cons l ls ih =>
    intro h
    cases ls with
    | nil =>
      rw [ltrimLines_single]
      rfl
    | cons l2 ls2 =>
      rw [ltrimLines_cons_cons]
      by_cases hw : allWs l = true
      · rw [if_pos hw]
        exact ih (hasTripleL_cons_false h)
      · rw [if_neg hw]
        rw [hasTripleL_first_indep (ltrim l) l]
        exact h

lemma rtrimLines_ne_nil (L : List (List Char)) : L ≠ [] → rtrimLines L ≠ [] := by
  intro hL
  cases L with
  | nil => exact absurd rfl hL
  | cons l ls =>
    cases ls with
    | nil =>
      rw [rtrimLines_single]
      simp
    | cons l2 ls2 =>
      rw [rtrimLines_cons_cons]
      by_cases hc : rtrimLines (l2 :: ls2) = [[]]
      · rw [if_pos hc]
        simp
      · rw [if_neg hc]
        simp

lemma twoNl_rtrimLines : ∀ {L : List (List Char)}, twoNl L = false →
    twoNl (rtrimLines L) = false := by
  intro L h
  match L with
  | [] => rfl
  | [l] =>
    rw [rtrimLines_single]
    rfl
  | l :: l2 :: ls =>
    rw [rtrimLines_cons_cons]
    by_cases hc : rtrimLines (l2 :: ls) = [[]]
    · rw [if_pos hc]
      rfl
    · rw [if_neg hc]
      cases ls with
      | nil =>
        rw [rtrimLines_single]
        rfl
      | cons l3 ls' =>
        rw [rtrimLines_cons_cons]
        by_cases hc2 : rtrimLines (l3 :: ls') = [[]]
        · rw [if_pos hc2]
          rfl
        · rw [if_neg hc2]
          cases hr : rtrimLines (l3 :: ls') with
          | nil => exact absurd hr (rtrimLines_ne_nil _ (by simp))
          | cons r rs =>
            show (allWs l && allWs l2) = false
            exact h

lemma hasTripleL_rtrimLines : ∀ {L : List (List Char)}, hasTripleL L = false →
    hasTripleL (rtrimLines L) = false := by
  intro L
  induction L with
  | nil => intro _; rfl
  | cons l ls ih =>
    intro h
    cases ls with
    | nil =>
      rw [rtrimLines_single]
      rfl
    | cons l2 ls2 =>
      rw [rtrimLines_cons_cons]
      by_cases hc : rtrimLines (l2 :: ls2) = [[]]
      · rw [if_pos hc]
        rfl
      · rw [if_neg hc]
        cases hr : rtrimLines (l2 :: ls2) with
        | nil => exact absurd hr (rtrimLines_ne_nil _ (by simp))
        | cons r rs =>
          rw [hasTripleL]
          have h1 : twoNl (r :: rs) = false := by
            rw [← hr]
            exact twoNl_rtrimLines (twoNl_cons_false h)
          have h2 : hasTripleL (r :: rs) = false := by
            rw [← hr]
            exact ih (hasTripleL_cons_false h)
          rw [h1, h2]
          rfl

/-! ## Line membership under the strip (towards C3) -/
lemma ltrimLines_ne_nil (L : List (List Char)) : L ≠ [] → ltrimLines L ≠ [] := by
  intro hL
  induction L with
  | nil => exact absurd rfl hL
  | cons l ls ih =>
    cases ls with
    | nil =>
      rw [ltrimLines_single]
      simp
    | cons l2 ls2 =>
      rw [ltrimLines_cons_cons]
      by_cases hw : allWs l = true
      · rw [if_pos hw]
        exact ih (by simp)
      · rw [if_neg hw]
        simp

lemma mem_ltrimLines : ∀ {L : List (List Char)} {a : List Char}, a ∈ ltrimLines L →
    a ∈ L ∨ ∃ l ∈ L, a = ltrim l := by
  intro L
  induction L with
  | nil =>
    intro a ha
    simp [ltrimLines] at ha
  | cons l ls ih =>
    intro a ha
    cases ls with
    | nil =>
      rw [ltrimLines_single] at ha
      simp at ha
      exact Or.inr ⟨l, by simp, ha⟩
    | cons l2 ls2 =>
      rw [ltrimLines_cons_cons] at ha
      by_cases hw : allWs l = true
      · rw [if_pos hw] at ha
        rcases ih ha with h | ⟨x, hx, hax⟩
        · exact Or.inl (by simp [h])
        · exact Or.inr ⟨x, by simp [hx], hax⟩
      · rw [if_neg hw] at ha
        rcases List.mem_cons.mp ha with rfl | h
        · exact Or.inr ⟨l, by simp, rfl⟩
        · exact Or.inl (by simp [h])

lemma mem_rtrimLines : ∀ {L : List (List Char)} {a : List Char}, a ∈ rtrimLines L →
    a ∈ L ∨ ∃ l ∈ L, a = rtrim l := by
  intro L
  induction L with
  | nil =>
    intro a ha
    simp [rtrimLines] at ha
  | cons l ls ih =>
    intro a ha
    cases ls with
    | nil =>
      rw [rtrimLines_single] at ha
      simp at ha
      exact Or.inr ⟨l, by simp, ha⟩
    | cons l2 ls2 =>
      rw [rtrimLines_cons_cons] at ha
      by_cases hc : rtrimLines (l2 :: ls2) = [[]]
      · rw [if_pos hc] at ha
        simp at ha
        exact Or.inr ⟨l, by simp, ha⟩
      · rw [if_neg hc] at ha
        rcases List.mem_cons.mp ha with rfl | h
        · exact Or.inl (by simp)
        · rcases ih h with h2 | ⟨x, hx, hax⟩
          · exact Or.inl (by simp [h2])
          · exact Or.inr ⟨x, by simp [hx], hax⟩

/-! ## splitNl versus rtrim (towards C3) -/
lemma allWs_joinNl : ∀ (L : List (List Char)), allWs (joinNl L) = L.all allWs
  | [] => rfl
  | [l] => by
    rw [joinNl, joinC_single]
    simp [List.all_cons]
  | l :: l2 :: ls => by
    rw [joinNl, joinC_cons_cons]
    have ih := allWs_joinNl (l2 :: ls)
    rw [joinNl] at ih
    simp only [allWs, List.all_append, List.all_cons] at ih ⊢
    rw [show pyWs '\n' = true from by decide, Bool.true_and, ih]

lemma lines_all_allWs (x : List Char) : (splitNl x).all allWs = allWs x := by
  conv_rhs => rw [show x = joinNl (splitNl x) from (joinC_splitC '\n' x).symm]
  rw [allWs_joinNl]

lemma rtrim_cons_of_nil {c : Char} {t : List Char} (h : rtrim t = []) :
    rtrim (c :: t) = if pyWs c then [] else [c] := by
  rw [rtrim, h]

lemma rtrimLines_allWs : ∀ {l : List Char} {ls : List (List Char)},
    ((l :: ls).all allWs) = true → rtrimLines (l :: ls) = [[]] := by
  intro l ls
  induction ls generalizing l with
  | nil =>
    intro h
    rw [rtrimLines_single, rtrim_all_ws (by simpa using h)]
  | cons l2 ls2 ih =>
    intro h
    simp only [List.all_cons, Bool.and_eq_true] at h
    rw [rtrimLines_cons_cons, if_pos (ih (by simp [h.2.1, h.2.2])),
      rtrim_all_ws h.1]

lemma rtrimLines_eq_nilnil : ∀ {l : List Char} {ls : List (List Char)},
    rtrimLines (l :: ls) = [[]] → ((l :: ls).all allWs) = true := by
  intro l ls
  induction ls generalizing l with
  | nil =>
    intro h
    rw [rtrimLines_single] at h
    simp only [List.cons.injEq] at h
    simp [List.all_cons, rtrim_eq_nil_iff.mp h.1]
  | cons l2 ls2 ih =>
    intro h
    rw [rtrimLines_cons_cons] at h
    by_cases hc : rtrimLines (l2 :: ls2) = [[]]
    · rw [if_pos hc] at h
      simp only [List.cons.injEq] at h
      have h2 := ih hc
      simp only [List.all_cons, Bool.and_eq_true] at h2 ⊢
      exact ⟨rtrim_eq_nil_iff.mp h.1, h2⟩
    · rw [if_neg hc] at h
      simp only [List.cons.injEq] at h
      exact absurd h.2 (rtrimLines_ne_nil _ (by simp))

lemma splitNl_rtrim : ∀ (x : List Char), splitNl (rtrim x) = rtrimLines (splitNl x) := by
  intro x
  induction x with
  | nil => rfl
  | cons c t ih =>
    have hlines := lines_all_allWs t
    cases hr : rtrim t with
    | nil =>
      have ht_all : allWs t = true := rtrim_eq_nil_iff.mp hr
      have hall : allWs (c :: t) = true ∨ pyWs c = false := by
        by_cases hc : pyWs c = true
        · exact Or.inl (by simp [allWs, List.all_cons, hc]; simpa [allWs] using ht_all)
        · exact Or.inr (by simpa using hc)
      rw [rtrim_cons_of_nil hr]
      by_cases hc : pyWs c = true
      · rw [if_pos hc]
        have hall2 : ((splitNl (c :: t)).all allWs) = true := by
          rw [lines_all_allWs]
          simp only [allWs, List.all_cons, hc, Bool.true_and]
          simpa [allWs] using ht_all
        cases hs : splitNl (c :: t) with
        | nil => exact absurd hs (splitC_ne_nil '\n' (c :: t))
        | cons h tl =>
          rw [hs] at hall2
          rw [rtrimLines_allWs hall2]
          rfl
      · rw [if_neg hc]
        have hc' : pyWs c = false := by simpa using hc
        have hnl : ¬ c = '\n' := by
          intro h
          rw [h] at hc'
          simp [pyWs] at hc'
        obtain ⟨h, tl, hs, hc2⟩ := splitNl_cons_nnl hnl t
        rw [hc2]
        have hls : ((h :: tl).all allWs) = true := by
          rw [← hs, lines_all_allWs]
          exact ht_all
        simp only [List.all_cons, Bool.and_eq_true] at hls
        have hrh : rtrim h = [] := rtrim_all_ws hls.1
        have hLHS : splitNl [c] = [[c]] :=
          splitC_no_sep (by
            intro hm
            exact hnl (List.mem_singleton.mp hm).symm)
        rw [hLHS]
        cases tl with
        | nil =>
          rw [rtrimLines_single, rtrim_cons_of_nil hrh, if_neg (by simp [hc'])]
        | cons t2 tl2 =>
          have htl : rtrimLines (t2 :: tl2) = [[]] := by
            apply rtrimLines_allWs
            simp only [List.all_cons, Bool.and_eq_true] at hls ⊢
            exact hls.2
          rw [rtrimLines_cons_cons, if_pos htl, rtrim_cons_of_nil hrh,
            if_neg (by simp [hc'])]
    | cons r rs =>
      have hrne : rtrim t ≠ [] := by
        rw [hr]
        simp
      have hnall : allWs t = false := by
        by_contra hb
        have hb' : allWs t = true := by simpa using hb
        exact hrne (rtrim_eq_nil_iff.mpr hb')
      have hlne : rtrimLines (splitNl t) ≠ [[]] := by
        intro hbad
        cases hs : splitNl t with
        | nil => exact absurd hs (splitC_ne_nil '\n' t)
        | cons h tl =>
          rw [hs] at hbad
          have := rtrimLines_eq_nilnil hbad
          rw [← hs, lines_all_allWs, hnall] at this
          simp at this
      rw [rtrim_cons_of_ne_nil hrne]
      by_cases hnl : c = '\n'
      · subst hnl
        rw [splitNl_cons_nl, splitNl_cons_nl, ih]
        cases hs : splitNl t with
        | nil => exact absurd hs (splitC_ne_nil '\n' t)
        | cons h tl =>
          rw [rtrimLines_cons_cons, if_neg (by rw [← hs]; exact hlne)]
      · obtain ⟨h', tl', hs', hc2'⟩ := splitNl_cons_nnl hnl (rtrim t)
        rw [hc2']
        obtain ⟨h, tl, hs, hc2⟩ := splitNl_cons_nnl hnl t
        rw [hc2]
        rw [ih] at hs'
        cases tl with
        | nil =>
          have hth : t = h := by
            conv_lhs => rw [show t = joinNl (splitNl t) from (joinC_splitC '\n' t).symm]
            rw [hs, joinNl, joinC_single]
          rw [hs, rtrimLines_single] at hs'
          simp only [List.cons.injEq] at hs'
          rw [rtrimLines_single, ← hs'.1, ← hs'.2]
          rw [rtrim_cons_of_ne_nil (by rw [← hth, hr]; simp)]
        | cons t2 tl2 =>
          rw [hs] at hs'
          rw [rtrimLines_cons_cons] at hs'
          rw [rtrimLines_cons_cons]
          by_cases hcc : rtrimLines (t2 :: tl2) = [[]]
          · rw [if_pos hcc] at hs'
            rw [if_pos hcc]
            simp only [List.cons.injEq] at hs'
            have hrh : rtrim h ≠ [] := by
              intro hbad
              apply hlne
              rw [hs, rtrimLines_cons_cons, if_pos hcc, hbad]
            rw [← hs'.1, ← hs'.2, rtrim_cons_of_ne_nil hrh]
          · rw [if_neg hcc] at hs'
            rw [if_neg hcc]
            simp only [List.cons.injEq] at hs'
            rw [← hs'.1, ← hs'.2]

/-! ## C3: idempotency of clean_response_text -/
lemma map_self {α : Type} : ∀ (l : List α) (f : α → α), (∀ a ∈ l, f a = a) →
    l.map f = l := by
  intro l f
  induction l with
  | nil => intro _; rfl
  | cons x xs ih =>
    intro h
    rw [List.map_cons, h x (by simp), ih (fun a ha => h a (by simp [ha]))]

lemma joinNl_splitNl (x : List Char) : joinNl (splitNl x) = x := joinC_splitC '\n' x

lemma splitNl_joinNl {L : List (List Char)} (hnl : ∀ l ∈ L, '\n' ∉ l)
    (hne : L ≠ []) : splitNl (joinNl L) = L := splitC_joinC hnl hne

lemma hasTriple_eq_lines (x : List Char) : hasTriple x = hasTripleL (splitNl x) := by
  conv_lhs => rw [show x = joinNl (splitNl x) from (joinNl_splitNl x).symm]
  exact hasTriple_joinNl (splitNl x) (mem_splitC_no_sep '\n' x)

lemma all_allWs_map_fixSep (L : List (List Char)) :
    (L.map fixSep).all allWs = L.all allWs := by
  induction L with
  | nil => rfl
  | cons l ls ih =>
    simp only [List.map_cons, List.all_cons, allWs_fixSep, ih]

/-- A text that is stripped, has no 3-newline run, and whose every line is a
fixed point of the separator fix-up, is a fixed point of the cleaner. -/
lemma clean_response_text_fixed {z : List Char} (hne : z ≠ [])
    (hstrip : pyStrip z = z) (htriple : hasTriple z = false)
    (hfix : ∀ l ∈ splitNl z, fixSep l = l) :
    clean_response_text z = z := by
  rw [clean_response_text, if_neg hne, subNNN_id_of_noTriple htriple,
    map_self _ _ hfix, joinNl_splitNl]
  exact hstrip

/-- C3 counterexample: on the nonempty all-whitespace input `" "` the
cleaner is not idempotent: `clean_response_text " "` is the empty string,
which the second pass maps to `"No response received."`. -/
theorem C3_counterexample :
    clean_response_text (clean_response_text " ".toList)
      ≠ clean_response_text " ".toList := by decide

/-- C3 (amended): `clean_response_text` is idempotent on every input that
is empty or contains at least one non-whitespace character; only nonempty
all-whitespace inputs (which clean to the empty string, re-cleaned to
`"No response received."`) escape idempotency. -/
theorem C3_cleanText_idempotent (t : List Char)
    (h : t = [] ∨ allWs t = false) :
    clean_response_text (clean_response_text t) = clean_response_text t := by
  rcases h with rfl | hws
  · decide
  · have hne : t ≠ [] := by
      intro h0
      rw [h0] at hws
      simp [allWs] at hws
    have hMnl : ∀ l ∈ (splitNl (subNNN t)).map fixSep, '\n' ∉ l := by
      intro l hl
      rcases List.mem_map.mp hl with ⟨m, hm, rfl⟩
      exact nl_not_mem_fixSep (mem_splitC_no_sep '\n' (subNNN t) m hm)
    have hMne : (splitNl (subNNN t)).map fixSep ≠ [] := by
      intro hbad
      cases hsp : splitNl (subNNN t) with
      | nil => exact splitC_ne_nil '\n' (subNNN t) hsp
      | cons a as =>
        rw [hsp] at hbad
        simp at hbad
    have hz : clean_response_text t
        = pyStrip (joinNl ((splitNl (subNNN t)).map fixSep)) := by
      rw [clean_response_text, if_neg hne]
    have h1 : pyStrip (clean_response_text t) = clean_response_text t := by
      rw [hz, pyStrip_idem]
    have hsplitz : splitNl (clean_response_text t)
        = rtrimLines (ltrimLines ((splitNl (subNNN t)).map fixSep)) := by
      rw [hz, pyStrip, splitNl_rtrim, splitNl_ltrim, splitNl_joinNl hMnl hMne]
    have h3 : hasTriple (clean_response_text t) = false := by
      rw [hasTriple_eq_lines, hsplitz]
      apply hasTripleL_rtrimLines
      apply hasTripleL_ltrimLines
      rw [hasTripleL_map_fixSep, ← hasTriple_eq_lines]
      exact subNNN_noTriple t.length t (le_refl _)
    have h4 : ∀ l ∈ splitNl (clean_response_text t), fixSep l = l := by
      intro l hl
      rw [hsplitz] at hl
      have hMfix : ∀ m ∈ (splitNl (subNNN t)).map fixSep, fixSep m = m := by
        intro m hm
        rcases List.mem_map.mp hm with ⟨m', hm', rfl⟩
        exact fixSep_idem m'
      rcases mem_rtrimLines hl with h5 | ⟨b, hb, rfl⟩
      · rcases mem_ltrimLines h5 with h6 | ⟨m, hm, rfl⟩
        · exact hMfix l h6
        · exact fixSep_fixed_ltrim (hMfix m hm)
      · rcases mem_ltrimLines hb with h6 | ⟨m, hm, rfl⟩
        · exact fixSep_fixed_rtrim (hMfix b h6)
        · exact fixSep_fixed_rtrim (fixSep_fixed_ltrim (hMfix m hm))
    have h5 : clean_response_text t ≠ [] := by
      rw [hz]
      intro hbad
      have hws2 := pyStrip_eq_nil_iff.mp hbad
      rw [allWs_joinNl, all_allWs_map_fixSep, lines_all_allWs] at hws2
      rw [allWs_subNNN_false t.length t (le_refl _) hws] at hws2
      simp at hws2
    exact clean_response_text_fixed h5 h1 h3 h4

/-- Witness for C3 at the concrete input `"a b"`. -/
theorem C3_cleanText_idempotent_witness :
    ("a b".toList = [] ∨ allWs "a b".toList = false) ∧
      clean_response_text (clean_response_text "a b".toList)
        = clean_response_text "a b".toList :=
  ⟨Or.inr (by decide), C3_cleanText_idempotent "a b".toList (Or.inr (by decide))⟩

end MarketingAgent
